import Mathlib

/-!
Verification of the markdone task-tracking engine (src/main.rs).

The document is modelled as a list of lines, each line a list of characters
(`Line := List Char`), exactly as the Rust code manipulates
`Vec<String>` / `char` iterators.  Every function of the engine is translated
one-to-one from the source; documents built by `Create` and mutated by the
operations are described by `mkDoc` / `mkDocT`.
-/

set_option maxHeartbeats 1000000

namespace Markdone

abbrev Line := List Char

/-! ### Generic list helpers mirroring the Rust iterator / Vec primitives -/

/-- Mirror of Rust `Iterator::position`: index of the first element satisfying
the predicate. -/
def firstIdx (p : α → Bool) : List α → Option Nat
  | [] => none
  | x :: xs => if p x then some 0 else (firstIdx p xs).map (· + 1)

/-- Mirror of Rust `Vec::insert` (in-bounds behaviour; Rust panics out of
bounds, which never occurs in the verified paths). -/
def insertAt : Nat → α → List α → List α
  | 0, a, l => a :: l
  | _ + 1, _, [] => []
  | i + 1, a, x :: xs => x :: insertAt i a xs

/-- Mirror of Rust `Vec::remove` (the returned element is read separately via
`getAt`). -/
def removeAt : Nat → List α → List α
  | _, [] => []
  | 0, _ :: xs => xs
  | i + 1, x :: xs => x :: removeAt i xs

/-- Element at an index (Rust `Vec::remove` return value / `lines[i]`). -/
def getAt (l : List Line) (i : Nat) : Line := l.getD i []

/-- Mirror of the Rust slice `&lines[s..e]`. -/
def sliceL (l : List Line) (s e : Nat) : List Line := (l.drop s).take (e - s)

/-- Mirror of Rust `str::starts_with`: `startsWithL s p` is true iff `p` is a
prefix of `s`. -/
def startsWithL : List Char → List Char → Bool
  | _, [] => true
  | [], _ :: _ => false
  | s :: ss, p :: ps => (p == s) && startsWithL ss ps

theorem firstIdx_cons_true (p : α → Bool) {x : α} (xs : List α) (h : p x = true) :
    firstIdx p (x :: xs) = some 0 := by
  simp [firstIdx, h]

theorem firstIdx_cons_false (p : α → Bool) {x : α} (xs : List α) (h : p x = false) :
    firstIdx p (x :: xs) = (firstIdx p xs).map (· + 1) := by
  simp [firstIdx, h]

theorem firstIdx_none_iff {p : α → Bool} {l : List α} :
    firstIdx p l = none ↔ ∀ x ∈ l, p x = false := by
  induction l with
  | nil => simp [firstIdx]
  | cons a l ih =>
    by_cases h : p a = true
    · simp [firstIdx, h]
    · have h2 : p a = false := by simpa using h
      rw [firstIdx_cons_false p l h2]
      cases hl : firstIdx p l with
      | none =>
        simp only [Option.map_none', true_iff, List.mem_cons]
        intro x hx
        rcases hx with rfl | hx
        · exact h2
        · exact ih.mp hl x hx
      | some i =>
        simp only [Option.map_some', List.mem_cons]
        constructor
        · intro hcon; cases hcon
        · intro hall
          have : firstIdx p l = none := ih.mpr fun x hx => hall x (Or.inr hx)
          rw [this] at hl; cases hl

theorem firstIdx_append_none {p : α → Bool} {A : List α} (B : List α)
    (h : firstIdx p A = none) :
    firstIdx p (A ++ B) = (firstIdx p B).map (fun i => A.length + i) := by
  induction A with
  | nil => cases hb : firstIdx p B <;> simp [hb]
  | cons a A ih =>
    have ha : p a = false := (firstIdx_none_iff.mp h) a (by simp)
    have hA : firstIdx p A = none := by
      rw [firstIdx_cons_false p A ha] at h
      cases hA : firstIdx p A <;> simp [hA] at h ⊢
    rw [List.cons_append, firstIdx_cons_false p _ ha, ih hA]
    cases hb : firstIdx p B <;> simp [hb] <;> omega

theorem firstIdx_append_some {p : α → Bool} {A : List α} {i : Nat} (B : List α)
    (h : firstIdx p A = some i) :
    firstIdx p (A ++ B) = some i := by
  induction A generalizing i with
  | nil => cases h
  | cons a A ih =>
    by_cases ha : p a = true
    · rw [firstIdx_cons_true p A ha] at h
      rw [List.cons_append, firstIdx_cons_true p _ ha, h]
    · have ha' : p a = false := by simpa using ha
      rw [firstIdx_cons_false p A ha'] at h
      cases hA : firstIdx p A with
      | none => rw [hA] at h; cases h
      | some j =>
        rw [hA] at h
        simp at h
        rw [List.cons_append, firstIdx_cons_false p _ ha', ih hA]
        simp [h]

theorem firstIdx_map {p : α → Bool} (f : β → α) (l : List β) :
    firstIdx p (l.map f) = firstIdx (fun b => p (f b)) l := by
  induction l with
  | nil => rfl
  | cons b l ih => by_cases h : p (f b) = true <;> simp [firstIdx, h, ih]

theorem firstIdx_congr {p q : α → Bool} {l : List α} (h : ∀ x ∈ l, p x = q x) :
    firstIdx p l = firstIdx q l := by
  induction l with
  | nil => rfl
  | cons a l ih =>
    have ha := h a (by simp)
    simp [firstIdx, ha, ih fun x hx => h x (by simp [hx])]

theorem firstIdx_some_lt {p : α → Bool} {l : List α} {i : Nat}
    (h : firstIdx p l = some i) : i < l.length := by
  induction l generalizing i with
  | nil => cases h
  | cons a l ih =>
    by_cases ha : p a = true
    · rw [firstIdx_cons_true p l ha] at h
      simp only [Option.some.injEq] at h
      simp [← h]
    · rw [firstIdx_cons_false p l (by simpa using ha)] at h
      cases hl : firstIdx p l with
      | none => rw [hl] at h; cases h
      | some j =>
        rw [hl] at h
        simp only [Option.map_some', Option.some.injEq] at h
        have := ih hl
        simp only [List.length_cons, ← h]
        omega

theorem firstIdx_isSome_iff {p : α → Bool} {l : List α} :
    (firstIdx p l).isSome = true ↔ ∃ x ∈ l, p x = true := by
  induction l with
  | nil => simp [firstIdx]
  | cons a l ih =>
    by_cases h : p a = true
    · simp [firstIdx, h]
    · rw [firstIdx_cons_false p l (by simpa using h)]
      cases hl : firstIdx p l with
      | none =>
        simp only [Option.map_none', Option.isSome_none, Bool.false_eq_true, false_iff]
        rintro ⟨x, hx, hpx⟩
        rcases List.mem_cons.mp hx with rfl | hx
        · exact h hpx
        · have : (firstIdx p l).isSome = true := ih.mpr ⟨x, hx, hpx⟩
          rw [hl] at this; cases this
      | some i =>
        simp only [Option.map_some', Option.isSome_some, true_iff]
        obtain ⟨x, hx, hpx⟩ := ih.mp (by simp [hl])
        exact ⟨x, List.mem_cons.mpr (Or.inr hx), hpx⟩

theorem insertAt_append_off (A : List α) {B : List α} (i : Nat) (x : α) :
    insertAt (A.length + i) x (A ++ B) = A ++ insertAt i x B := by
  induction A with
  | nil => simp
  | cons a A ih => simpa [insertAt, Nat.succ_add] using ih

theorem removeAt_append_off (A : List α) {B : List α} (i : Nat) :
    removeAt (A.length + i) (A ++ B) = A ++ removeAt i B := by
  induction A with
  | nil => simp
  | cons a A ih => simpa [removeAt, Nat.succ_add] using ih

theorem removeAt_append_lt {A : List α} (B : List α) {k : Nat} (h : k < A.length) :
    removeAt k (A ++ B) = removeAt k A ++ B := by
  induction A generalizing k with
  | nil => cases h
  | cons a A ih =>
    cases k with
    | zero => simp [removeAt]
    | succ k => simp [removeAt]; exact ih (by simpa using h)

theorem removeAt_map (f : β → α) (l : List β) (k : Nat) :
    removeAt k (l.map f) = (removeAt k l).map f := by
  induction l generalizing k with
  | nil => simp [removeAt]
  | cons a l ih => cases k <;> simp [removeAt, ih]

theorem length_removeAt {l : List α} {k : Nat} (h : k < l.length) :
    (removeAt k l).length = l.length - 1 := by
  induction l generalizing k with
  | nil => cases h
  | cons a l ih =>
    cases k with
    | zero => simp [removeAt]
    | succ k =>
      have hk : k < l.length := by simpa using h
      have := ih hk
      simp only [removeAt, List.length_cons, this]
      omega

theorem removeAt_two_add (k : Nat) (a b : α) (l : List α) :
    removeAt (2 + k) (a :: b :: l) = a :: b :: removeAt k l := by
  have h : 2 + k = k + 2 := by omega
  rw [h]
  rfl

theorem insertAt_two_add (k : Nat) (x a b : α) (l : List α) :
    insertAt (2 + k) x (a :: b :: l) = a :: b :: insertAt k x l := by
  have h : 2 + k = k + 2 := by omega
  rw [h]
  rfl

theorem getAt_append_off (A : List Line) {B : List Line} (i : Nat) :
    getAt (A ++ B) (A.length + i) = getAt B i := by
  induction A with
  | nil => simp
  | cons a A ih => simpa [getAt, List.getD, Nat.succ_add] using ih

theorem getAt_append_lt {A : List Line} (B : List Line) {k : Nat} (h : k < A.length) :
    getAt (A ++ B) k = getAt A k := by
  unfold getAt
  induction A generalizing k with
  | nil => cases h
  | cons a A ih =>
    cases k with
    | zero => rfl
    | succ k => simpa [List.getD] using ih (by simpa using h)

theorem startsWithL_app (p r : List Char) : startsWithL (p ++ r) p = true := by
  induction p with
  | nil => cases r <;> rfl
  | cons c p ih => simp [startsWithL, ih]

theorem startsWithL_iff {s p : List Char} :
    startsWithL s p = true ↔ ∃ r, s = p ++ r := by
  constructor
  · intro h
    induction p generalizing s with
    | nil => exact ⟨s, rfl⟩
    | cons c p ih =>
      cases s with
      | nil => cases h
      | cons a s =>
        simp [startsWithL] at h
        obtain ⟨r, hr⟩ := ih h.2
        exact ⟨r, by simp [h.1, hr]⟩
  · rintro ⟨r, rfl⟩
    exact startsWithL_app p r

theorem startsWithL_cancel (A r q : List Char) :
    startsWithL (A ++ r) (A ++ q) = startsWithL r q := by
  induction A with
  | nil => rfl
  | cons c A ih => simp [startsWithL, ih]

theorem takeWhile_append_all {p : α → Bool} {A : List α} (B : List α)
    (h : ∀ a ∈ A, p a = true) :
    (A ++ B).takeWhile p = A ++ B.takeWhile p := by
  induction A with
  | nil => rfl
  | cons a A ih =>
    simp [List.takeWhile, h a (by simp)]
    exact ih fun x hx => h x (by simp [hx])

theorem dropWhile_append_all {p : α → Bool} {A : List α} (B : List α)
    (h : ∀ a ∈ A, p a = true) :
    (A ++ B).dropWhile p = B.dropWhile p := by
  induction A with
  | nil => rfl
  | cons a A ih =>
    simp [List.dropWhile, h a (by simp)]
    exact ih fun x hx => h x (by simp [hx])

/-! ### Decimal digits: the model of Rust `usize` formatting and parsing -/

def digitChar (d : Nat) : Char := Char.ofNat (48 + d)

/-- Little-endian digit characters of `n` (empty for `0`); the `fuel`
argument makes the recursion structural. -/
def toDigitsRev : Nat → Nat → List Char
  | _, 0 => []
  | 0, _ + 1 => []
  | f + 1, n + 1 => digitChar ((n + 1) % 10) :: toDigitsRev f ((n + 1) / 10)

/-- Decimal rendering of a natural number, the model of Rust
`format!("{}", id)` for `usize`. -/
def digitChars (n : Nat) : List Char :=
  if n = 0 then ['0'] else (toDigitsRev n n).reverse

/-- Value accumulated left-to-right, the core of Rust `str::parse::<usize>`. -/
def charsVal (cs : List Char) : Nat :=
  cs.foldl (fun a c => 10 * a + (c.toNat - 48)) 0

/-- Model of Rust `str::parse::<usize>`: optional leading `+`, at least one
ASCII digit, value below `2^64` (otherwise `PosOverflow`). -/
def parseUsize (cs : List Char) : Option Nat :=
  let ds := match cs with
    | '+' :: rest => rest
    | _ => cs
  if ds ≠ [] ∧ ds.all (fun c => c.isDigit) then
    if charsVal ds < 2 ^ 64 then some (charsVal ds) else none
  else none

theorem digitChar_isDigit : ∀ d < 10, (digitChar d).isDigit = true := by decide

theorem digitChar_ne_star : ∀ d < 10, digitChar d ≠ '*' := by decide

theorem digitChar_ne_colon : ∀ d < 10, digitChar d ≠ ':' := by decide

theorem digitChar_ne_plus : ∀ d < 10, digitChar d ≠ '+' := by decide

theorem digitChar_val : ∀ d < 10, (digitChar d).toNat - 48 = d := by decide

theorem digitChar_inj : ∀ d < 10, ∀ e < 10, digitChar d = digitChar e → d = e := by decide

theorem toDigitsRev_mem {f n : Nat} (h : n ≤ f) :
    ∀ c ∈ toDigitsRev f n, ∃ d, d < 10 ∧ c = digitChar d := by
  induction f generalizing n with
  | zero =>
    intro c hc
    interval_cases n <;> simp [toDigitsRev] at hc
  | succ f ih =>
    intro c hc
    cases n with
    | zero => simp [toDigitsRev] at hc
    | succ m =>
      simp [toDigitsRev] at hc
      rcases hc with hc | hc
      · exact ⟨(m + 1) % 10, Nat.mod_lt _ (by omega), hc⟩
      · exact ih (by omega : (m + 1) / 10 ≤ f) c hc

/-- Little-endian value of a digit string. -/
def valLE : List Char → Nat
  | [] => 0
  | c :: cs => (c.toNat - 48) + 10 * valLE cs

theorem valLE_toDigitsRev {f n : Nat} (h : n ≤ f) : valLE (toDigitsRev f n) = n := by
  induction f generalizing n with
  | zero =>
    interval_cases n
    simp [toDigitsRev, valLE]
  | succ f ih =>
    cases n with
    | zero => simp [toDigitsRev, valLE]
    | succ m =>
      have hdiv : (m + 1) / 10 ≤ f := by
        have := Nat.div_lt_self (by omega : 0 < m + 1) (by omega : 1 < 10)
        omega
      simp [toDigitsRev, valLE, ih hdiv, digitChar_val _ (Nat.mod_lt _ (by omega))]
      omega

theorem charsVal_acc (cs : List Char) (a : Nat) :
    cs.foldl (fun a c => 10 * a + (c.toNat - 48)) a
      = a * 10 ^ cs.length + charsVal cs := by
  induction cs generalizing a with
  | nil => simp [charsVal]
  | cons c cs ih =>
    simp only [List.foldl_cons, charsVal, List.length_cons] at *
    rw [ih, ih (10 * 0 + (c.toNat - 48))]
    ring

theorem charsVal_reverse (cs : List Char) : charsVal cs.reverse = valLE cs := by
  induction cs with
  | nil => rfl
  | cons c cs ih =>
    simp only [List.reverse_cons, charsVal, List.foldl_append, List.foldl_cons,
      List.foldl_nil, valLE]
    rw [show (List.foldl (fun a c => 10 * a + (c.toNat - 48)) 0 cs.reverse) = charsVal cs.reverse
        from rfl, ih]
    omega

theorem charsVal_digitChars (n : Nat) : charsVal (digitChars n) = n := by
  unfold digitChars
  by_cases h : n = 0
  · subst h; decide
  · simp [h, charsVal_reverse, valLE_toDigitsRev (Nat.le_refl n)]

theorem digitChars_mem (n : Nat) :
    ∀ c ∈ digitChars n, ∃ d, d < 10 ∧ c = digitChar d := by
  unfold digitChars
  by_cases h : n = 0
  · subst h
    intro c hc
    simp at hc
    exact ⟨0, by omega, by simpa using hc⟩
  · simp [h]
    intro c hc
    exact toDigitsRev_mem (Nat.le_refl n) c (by simpa using hc)

theorem digitChars_isDigit (n : Nat) : ∀ c ∈ digitChars n, c.isDigit = true := by
  intro c hc
  obtain ⟨d, hd, rfl⟩ := digitChars_mem n c hc
  exact digitChar_isDigit d hd

theorem digitChars_ne_star (n : Nat) : ∀ c ∈ digitChars n, c ≠ '*' := by
  intro c hc
  obtain ⟨d, hd, rfl⟩ := digitChars_mem n c hc
  exact digitChar_ne_star d hd

theorem digitChars_ne_colon (n : Nat) : ∀ c ∈ digitChars n, c ≠ ':' := by
  intro c hc
  obtain ⟨d, hd, rfl⟩ := digitChars_mem n c hc
  exact digitChar_ne_colon d hd

theorem digitChars_ne_nil (n : Nat) : digitChars n ≠ [] := by
  unfold digitChars
  by_cases h : n = 0
  · simp [h]
  · simp [h]
    intro hcon
    have := valLE_toDigitsRev (Nat.le_refl n)
    rw [hcon] at this
    simp [valLE] at this
    omega

theorem digitChars_inj {m n : Nat} (h : digitChars m = digitChars n) : m = n := by
  have := charsVal_digitChars m
  rw [h, charsVal_digitChars n] at this
  omega

theorem parseUsize_digitChars {n : Nat} (h : n < 2 ^ 64) :
    parseUsize (digitChars n) = some n := by
  have hne := digitChars_ne_nil n
  have hds : (match digitChars n with
      | '+' :: rest => rest
      | _ => digitChars n) = digitChars n := by
    split
    · next rest heq =>
      exfalso
      have hc : '+' ∈ digitChars n := by rw [heq]; simp
      obtain ⟨d, hdlt, hd⟩ := digitChars_mem n _ hc
      exact digitChar_ne_plus d hdlt hd.symm
    · rfl
  unfold parseUsize
  simp only [hds]
  rw [if_pos ⟨hne, by simpa [List.all_eq_true] using digitChars_isDigit n⟩,
    charsVal_digitChars n, if_pos h]

/-! ### The data model (src/main.rs) -/

inductive TaskStatus
  | Selected
  | Incomplete
  | Complete
deriving DecidableEq, Repr

structure Task where
  id : Nat
  task : Line
  task_status : TaskStatus
deriving DecidableEq, Repr

/-- `"### SELECTED"` -/
def hdrSel : Line := ['#', '#', '#', ' ', 'S', 'E', 'L', 'E', 'C', 'T', 'E', 'D']

/-- `"### INCOMPLETE"` -/
def hdrInc : Line :=
  ['#', '#', '#', ' ', 'I', 'N', 'C', 'O', 'M', 'P', 'L', 'E', 'T', 'E']

/-- `"### COMPLETE"` -/
def hdrComp : Line := ['#', '#', '#', ' ', 'C', 'O', 'M', 'P', 'L', 'E', 'T', 'E']

/-- `"---"` -/
def sepLine : Line := ['-', '-', '-']

/-- The header produced by `format!("### {}", section.to_string().to_uppercase())`;
identical to the strings matched by `TaskStatus::try_from`. -/
def statusHeader : TaskStatus → Line
  | .Selected => hdrSel
  | .Incomplete => hdrInc
  | .Complete => hdrComp

/-- Mirror of `TaskStatus::try_from(&String)` (main.rs lines 94-108). -/
def statusTryFrom (l : Line) : Option TaskStatus :=
  if l = hdrSel then some .Selected
  else if l = hdrInc then some .Incomplete
  else if l = hdrComp then some .Complete
  else none

/-- `"- [ ] **"` -/
def boxU : Line := ['-', ' ', '[', ' ', ']', ' ', '*', '*']

/-- `"- [x] **"` -/
def boxC : Line := ['-', ' ', '[', 'x', ']', ' ', '*', '*']

/-- `"- [ ] "` -/
def pre6U : Line := ['-', ' ', '[', ' ', ']', ' ']

/-- `"- [x] "` -/
def pre6C : Line := ['-', ' ', '[', 'x', ']', ' ']

/-- `"**: "` (the delimiter closing the id and preceding the description). -/
def starColon : Line := ['*', '*', ':', ' ']

/-- Mirror of `get_id` (main.rs lines 153-161): skip 8 chars, take until `*`,
parse as `usize`. -/
def get_id (l : Line) : Option Nat :=
  parseUsize ((l.drop 8).takeWhile (fun c => c != '*'))

/-- Mirror of `get_task_id` (main.rs lines 234-242), byte-for-byte the same
algorithm as `get_id`. -/
def get_task_id (l : Line) : Option Nat :=
  parseUsize ((l.drop 8).takeWhile (fun c => c != '*'))

/-- Mirror of `Task::try_from((String, TaskStatus))` (main.rs lines 117-145).
The boolean called `completed` in the source is true exactly when the
checkbox is NOT checked (char 3 is not `x`). -/
def taskTryFrom (l : Line) (st : TaskStatus) : Option Task :=
  if startsWithL l boxU || startsWithL l boxC then
    if (l.getD 3 ' ' != 'x') && (st == .Complete) then none
    else
      match get_id l with
      | none => none
      | some i => some ⟨i, (l.dropWhile (fun c => c != ':')).drop 2, st⟩
  else none

/-- The recursion of `get_tasks_in_sections`'s `filter_map` closure: `status`
is the mutable `Option<TaskStatus>` captured by the closure.  Note that a
header whose status is NOT in `sections` leaves `status` unchanged. -/
def getTasksGo (sections : List TaskStatus) :
    Option TaskStatus → List Line → List Task
  | _, [] => []
  | status, line :: rest =>
    match statusTryFrom line with
    | some s =>
      getTasksGo sections (if sections.contains s then some s else status) rest
    | none =>
      match status with
      | some s =>
        match taskTryFrom line s with
        | some t => t :: getTasksGo sections status rest
        | none => getTasksGo sections status rest
      | none => getTasksGo sections status rest

/-- Mirror of `get_tasks_in_sections` (main.rs lines 169-189). -/
def get_tasks_in_sections (lines : List Line) (sections : List TaskStatus) :
    List Task :=
  getTasksGo sections none lines

/-- Mirror of `get_section_start` (main.rs lines 191-196). -/
def get_section_start (lines : List Line) (st : TaskStatus) : Option Nat :=
  firstIdx (fun l => l == statusHeader st) lines

/-- Mirror of `get_section_end` (main.rs lines 198-206). -/
def get_section_end (lines : List Line) (s : Nat) : Option Nat :=
  (firstIdx (fun l => l == sepLine) (lines.drop s)).map (fun i => s + i)

/-- Mirror of `get_section_indexes` (main.rs lines 208-211). -/
def get_section_indexes (lines : List Line) (st : TaskStatus) :
    Option (Nat × Nat) :=
  match get_section_start lines st with
  | none => none
  | some s =>
    match get_section_end lines s with
    | none => none
    | some e => some (s, e)

/-- Mirror of `get_section` (main.rs lines 213-217). -/
def get_section (lines : List Line) (st : TaskStatus) : Option (List Line) :=
  match get_section_indexes lines st with
  | none => none
  | some (s, e) => some (sliceL lines s e)

/-- Mirror of `get_task_count_in_section` (main.rs lines 219-225). -/
def get_task_count_in_section (sec : List Line) : Nat :=
  ((sec.drop 2).takeWhile
    (fun l => startsWithL l pre6U || startsWithL l pre6C)).length

/-- `format!("- [ ] **{}**:", id)` -/
def idPatU (id : Nat) : Line := boxU ++ digitChars id ++ ['*', '*', ':']

/-- `format!("- [x] **{}**", id)` (note: no trailing colon in the source). -/
def idPatC (id : Nat) : Line := boxC ++ digitChars id ++ ['*', '*']

/-- Mirror of `get_task_idx_in_section` (main.rs lines 227-232). -/
def get_task_idx_in_section (sec : List Line) (id : Nat) : Option Nat :=
  firstIdx (fun l => startsWithL l (idPatU id) || startsWithL l (idPatC id)) sec

/-- Mirror of `get_next_id` (main.rs lines 244-249). -/
def get_next_id (lines : List Line) : Nat :=
  match (lines.filterMap (fun l => get_task_id l)).max? with
  | some i => i + 1
  | none => 0

/-- Failure kinds of the engine (the `anyhow` bail messages, by kind).
`sectionErr` collapses the section-not-found / section-malformed context
errors, which no claim distinguishes. -/
inductive EngineError
  | sectionErr
  | alreadyInTargetState
  | taskNotFound
  | notIncomplete
deriving DecidableEq, Repr

/-- The shared mutation tail of Check / Select / Uncheck / Deselect
(main.rs lines 318-333, 430-443, 479-490, 520-533): remove the line at
`tidx`, optionally overwrite its char 3 with `newc`, remove the spacer when
the source section had exactly one task, then insert at the top of the
`dest` section (adding the blank spacer when that section was empty). -/
def moveLines (lines : List Line) (tidx tcount : Nat) (newc : Option Char)
    (dest : TaskStatus) : Except EngineError (List Line) :=
  let task := getAt lines tidx
  let task2 := match newc with
    | some c => task.set 3 c
    | none => task
  let lines1 := removeAt tidx lines
  let lines2 := if tcount = 1 then removeAt tidx lines1 else lines1
  match get_section_indexes lines2 dest with
  | none => .error .sectionErr
  | some (ds, de) =>
    .ok (insertAt (ds + 2) task2
      (if de - ds = 2 then insertAt de ([] : Line) lines2 else lines2))

/-- Mirror of `Commands::Add` (main.rs lines 259-278): returns the new line
sequence and the allocated id. -/
def addOp (lines : List Line) (txt : Line) :
    Except EngineError (List Line × Nat) :=
  match get_section_indexes lines .Incomplete with
  | none => .error .sectionErr
  | some (s, e) =>
    let id := get_next_id lines
    let lines1 := if e - s = 2 then insertAt e ([] : Line) lines else lines
    .ok (insertAt (s + 2) (boxU ++ digitChars id ++ starColon ++ txt) lines1, id)

/-- The search phase of `Commands::Check` (main.rs lines 285-317): selected
section first, then incomplete. -/
def checkFind (lines : List Line) (id : Nat) :
    Except EngineError (Nat × Nat) :=
  match get_section_indexes lines .Selected with
  | none => .error .sectionErr
  | some (ss, se) =>
    match get_task_idx_in_section (sliceL lines ss se) id with
    | some i => .ok (i + ss, get_task_count_in_section (sliceL lines ss se))
    | none =>
      match get_section_indexes lines .Incomplete with
      | none => .error .sectionErr
      | some (js, je) =>
        match get_task_idx_in_section (sliceL lines js je) id with
        | some i => .ok (i + js, get_task_count_in_section (sliceL lines js je))
        | none => .error .taskNotFound

/-- Mirror of `Commands::Check` (main.rs lines 279-344). -/
def checkOp (lines : List Line) (id : Nat) : Except EngineError (List Line) :=
  match get_section lines .Complete with
  | none => .error .sectionErr
  | some compSec =>
    match get_task_idx_in_section compSec id with
    | some _ => .error .alreadyInTargetState
    | none =>
      match checkFind lines id with
      | .error e => .error e
      | .ok (tidx, tcount) => moveLines lines tidx tcount (some 'x') .Complete

/-- The file content after running Check: the file is rewritten only when
the operation succeeds (every `bail!` returns before any write). -/
def runCheck (lines : List Line) (id : Nat) : List Line :=
  match checkOp lines id with
  | .ok l => l
  | .error _ => lines

/-- The search phase of `Commands::Select` (main.rs lines 394-429):
incomplete first, then complete (rejected as "not incomplete"), then
selected. -/
def selectFind (lines : List Line) (id : Nat) :
    Except EngineError (Nat × Nat) :=
  match get_section_indexes lines .Incomplete with
  | none => .error .sectionErr
  | some (js, je) =>
    match get_task_idx_in_section (sliceL lines js je) id with
    | some i => .ok (i + js, get_task_count_in_section (sliceL lines js je))
    | none =>
      match get_section lines .Complete with
      | none => .error .sectionErr
      | some compSec =>
        match get_task_idx_in_section compSec id with
        | some _ => .error .notIncomplete
        | none =>
          match get_section_indexes lines .Selected with
          | none => .error .sectionErr
          | some (ss, se) =>
            match get_task_idx_in_section (sliceL lines ss se) id with
            | some i =>
              .ok (i + ss, get_task_count_in_section (sliceL lines ss se))
            | none => .error .taskNotFound

/-- Mirror of `Commands::Select` (main.rs lines 390-454); the moved line is
re-inserted verbatim (its checkbox is not rewritten). -/
def selectOp (lines : List Line) (id : Nat) : Except EngineError (List Line) :=
  match selectFind lines id with
  | .error e => .error e
  | .ok (tidx, tcount) => moveLines lines tidx tcount none .Selected

/-- Mirror of `Commands::Uncheck` (main.rs lines 455-501); only the complete
section is searched; char 3 is rewritten to a space. -/
def uncheckOp (lines : List Line) (id : Nat) (selFlag : Bool) :
    Except EngineError (List Line) :=
  match get_section_indexes lines .Complete with
  | none => .error .sectionErr
  | some (cs, ce) =>
    match get_task_idx_in_section (sliceL lines cs ce) id with
    | some i =>
      moveLines lines (i + cs) (get_task_count_in_section (sliceL lines cs ce))
        (some ' ') (if selFlag then .Selected else .Incomplete)
    | none => .error .taskNotFound

/-- Mirror of `Commands::Deselect` (main.rs lines 502-544); only the selected
section is searched; the line moves verbatim. -/
def deselectOp (lines : List Line) (id : Nat) : Except EngineError (List Line) :=
  match get_section_indexes lines .Selected with
  | none => .error .sectionErr
  | some (ss, se) =>
    match get_task_idx_in_section (sliceL lines ss se) id with
    | some i =>
      moveLines lines (i + ss) (get_task_count_in_section (sliceL lines ss se))
        none .Incomplete
    | none => .error .taskNotFound

/-! ### Well-formed documents -/

/-- The canonical rendering of a task, `format!("- [ ] **{}**: {}", id, text)`
resp. `- [x] ...` for a complete task (spec section 6). -/
def encodeLine (t : Task) : Line :=
  (if t.task_status = .Complete then boxC else boxU)
    ++ digitChars t.id ++ starColon ++ t.task

/-- The trailing part of a section body: the task lines followed by the blank
spacer, or nothing when the section is empty. -/
def spacerTail (ts : List Line) : List Line :=
  if ts = [] then [] else ts ++ [([] : Line)]

/-- A full section: header, blank line, task lines (with trailing spacer when
non-empty), separator. -/
def secLines (h : Line) (ts : List Line) : List Line :=
  h :: ([] : Line) :: (spacerTail ts ++ [sepLine])

/-- A well-formed document: the three sections in order, a blank line between
consecutive sections (exactly the layout written by `Create`). -/
def mkDoc (S I C : List Line) : List Line :=
  secLines hdrSel S ++ [([] : Line)] ++ secLines hdrInc I
    ++ [([] : Line)] ++ secLines hdrComp C

/-- A well-formed document whose task lines are canonical encodings. -/
def mkDocT (S I C : List Task) : List Line :=
  mkDoc (S.map encodeLine) (I.map encodeLine) (C.map encodeLine)

/-- Number of lines contributed by a section's tasks (tasks plus trailing
spacer). -/
def tlen (ts : List Task) : Nat := if ts = [] then 0 else ts.length + 1

/-- Total number of lines of a section. -/
def slen (ts : List Task) : Nat := 3 + tlen ts

/-- The slice `&lines[start..end]` of a section in a well-formed document. -/
def secSlice (h : Line) (ts : List Task) : List Line :=
  h :: ([] : Line) :: spacerTail (ts.map encodeLine)

/-- The task at index `k` (used to name the moved task). -/
def taskAt (ts : List Task) (k : Nat) : Task := ts.getD k ⟨0, [], .Incomplete⟩

/-! ### Spec-side definitions (written from the claims, for comparison) -/

/-- Claim C4's allocation rule: one greater than the maximum task id present
across all three sections, zero when there are no tasks. -/
def nextIdSpec (ts : List Task) : Nat :=
  match (ts.map Task.id).max? with
  | some m => m + 1
  | none => 0

/-- Claim C10's scan rule: the maximum over ALL lines of the value of the
characters after the first eight up to the first `*`, whenever that slice
parses as a usize. -/
def specScanNextId (lines : List Line) : Nat :=
  match (lines.filterMap
      (fun l => parseUsize ((l.drop 8).takeWhile (fun c => c != '*')))).max? with
  | some m => m + 1
  | none => 0

/-! ### Facts about encoded task lines -/

theorem encodeLine_eq (t : Task) :
    encodeLine t
      = (if t.task_status = .Complete then boxC else boxU)
        ++ (digitChars t.id ++ (starColon ++ t.task)) := by
  simp [encodeLine]

theorem enc_beq_hdr (t : Task) (st : TaskStatus) :
    (encodeLine t == statusHeader st) = false := by
  rw [beq_eq_false_iff_ne]
  by_cases h : t.task_status = .Complete <;>
    cases st <;>
      simp [encodeLine, h, boxU, boxC, statusHeader, hdrSel, hdrInc, hdrComp]

theorem enc_beq_sep (t : Task) : (encodeLine t == sepLine) = false := by
  rw [beq_eq_false_iff_ne]
  by_cases h : t.task_status = .Complete <;>
    simp [encodeLine, h, boxU, boxC, sepLine]

theorem enc_ne_blank (t : Task) : (encodeLine t == ([] : Line)) = false := by
  rw [beq_eq_false_iff_ne]
  by_cases h : t.task_status = .Complete <;> simp [encodeLine, h, boxU, boxC]

theorem blank_beq_hdr (st : TaskStatus) :
    (([] : Line) == statusHeader st) = false := by
  cases st <;> decide

theorem sep_beq_hdr (st : TaskStatus) : (sepLine == statusHeader st) = false := by
  cases st <;> decide

theorem blank_beq_sep : (([] : Line) == sepLine) = false := by decide

/-- A canonical task line starts with the 6-char checkbox prefix used by
`get_task_count_in_section`. -/
theorem taskish_enc (t : Task) :
    (startsWithL (encodeLine t) pre6U || startsWithL (encodeLine t) pre6C)
      = true := by
  by_cases h : t.task_status = .Complete
  · apply Bool.or_eq_true_iff.mpr
    right
    have : encodeLine t = pre6C ++ (['*', '*'] ++ (digitChars t.id ++ (starColon ++ t.task))) := by
      simp [encodeLine, h, boxC, pre6C]
    rw [this]
    exact startsWithL_app pre6C _
  · apply Bool.or_eq_true_iff.mpr
    left
    have : encodeLine t = pre6U ++ (['*', '*'] ++ (digitChars t.id ++ (starColon ++ t.task))) := by
      simp [encodeLine, h, boxU, pre6U]
    rw [this]
    exact startsWithL_app pre6U _

theorem blank_not_taskish :
    (startsWithL ([] : Line) pre6U || startsWithL ([] : Line) pre6C) = false := by
  decide

/-! ### The id pattern matches exactly the task with that id -/

theorem star_pref : ∀ (d1 d2 : List Char), (∀ c ∈ d1, c ≠ '*') →
    (∀ c ∈ d2, c ≠ '*') → ∀ r s : List Char,
    startsWithL (d2 ++ '*' :: r) (d1 ++ '*' :: s) = true → d1 = d2 := by
  intro d1
  induction d1 with
  | nil =>
    intro d2 _ h2 r s h
    cases d2 with
    | nil => rfl
    | cons e d2 =>
      exfalso
      have he : ('*' == e) = false :=
        beq_eq_false_iff_ne.mpr (Ne.symm (h2 e (by simp)))
      simp [startsWithL, he] at h
  | cons c d1 ih =>
    intro d2 h1 h2 r s h
    cases d2 with
    | nil =>
      exfalso
      have hc : (c == '*') = false := beq_eq_false_iff_ne.mpr (h1 c (by simp))
      simp [startsWithL, hc] at h
    | cons e d2 =>
      simp only [List.cons_append, startsWithL, Bool.and_eq_true, beq_iff_eq] at h
      have := ih d2 (fun x hx => h1 x (by simp [hx]))
        (fun x hx => h2 x (by simp [hx])) r s h.2
      rw [h.1, this]

theorem swl_boxU_boxC (r q : List Char) :
    startsWithL (boxU ++ r) (boxC ++ q) = false := by
  simp [boxU, boxC, startsWithL]

theorem swl_boxC_boxU (r q : List Char) :
    startsWithL (boxC ++ r) (boxU ++ q) = false := by
  simp [boxU, boxC, startsWithL]

/-- The search pattern of `get_task_idx_in_section` matches a canonical task
line exactly when the ids agree. -/
theorem idMatch_enc (t : Task) (id : Nat) :
    (startsWithL (encodeLine t) (idPatU id)
      || startsWithL (encodeLine t) (idPatC id)) = (t.id == id) := by
  have hDt := digitChars_ne_star t.id
  have hDid := digitChars_ne_star id
  by_cases h : t.task_status = .Complete
  · have henc : encodeLine t
        = boxC ++ (digitChars t.id ++ ('*' :: '*' :: ':' :: ' ' :: t.task)) := by
      simp [encodeLine, h, starColon]
    rw [henc, idPatU, idPatC]
    rw [show boxU ++ digitChars id ++ ['*', '*', ':']
        = boxU ++ (digitChars id ++ ['*', '*', ':']) by simp,
      show boxC ++ digitChars id ++ ['*', '*']
        = boxC ++ (digitChars id ++ ['*', '*']) by simp]
    rw [swl_boxC_boxU, startsWithL_cancel]
    simp only [Bool.false_or]
    by_cases hid : t.id = id
    · subst hid
      rw [show digitChars t.id ++ ['*', '*']
          = digitChars t.id ++ '*' :: ['*'] by simp]
      rw [show digitChars t.id ++ ('*' :: '*' :: ':' :: ' ' :: t.task)
          = digitChars t.id ++ '*' :: ('*' :: ':' :: ' ' :: t.task) by simp]
      rw [startsWithL_cancel]
      simp [startsWithL]
    · have hne : (t.id == id) = false := by simp [hid]
      rw [hne]
      by_contra hcon
      have htrue : startsWithL
          (digitChars t.id ++ '*' :: ('*' :: ':' :: ' ' :: t.task))
          (digitChars id ++ '*' :: ['*']) = true := by
        revert hcon
        rw [show digitChars t.id ++ ('*' :: '*' :: ':' :: ' ' :: t.task)
            = digitChars t.id ++ '*' :: ('*' :: ':' :: ' ' :: t.task) by simp,
          show digitChars id ++ ['*', '*'] = digitChars id ++ '*' :: ['*'] by simp]
        intro hcon
        cases hx : startsWithL (digitChars t.id ++ '*' :: ('*' :: ':' :: ' ' :: t.task))
            (digitChars id ++ '*' :: ['*'])
        · exact absurd hx hcon
        · rfl
      exact hid (digitChars_inj (star_pref _ _ hDid hDt _ _ htrue)).symm
  · have henc : encodeLine t
        = boxU ++ (digitChars t.id ++ ('*' :: '*' :: ':' :: ' ' :: t.task)) := by
      simp [encodeLine, h, starColon]
    rw [henc, idPatU, idPatC]
    rw [show boxU ++ digitChars id ++ ['*', '*', ':']
        = boxU ++ (digitChars id ++ ['*', '*', ':']) by simp,
      show boxC ++ digitChars id ++ ['*', '*']
        = boxC ++ (digitChars id ++ ['*', '*']) by simp]
    rw [swl_boxU_boxC, startsWithL_cancel]
    simp only [Bool.or_false]
    by_cases hid : t.id = id
    · subst hid
      rw [show digitChars t.id ++ ['*', '*', ':']
          = digitChars t.id ++ '*' :: ['*', ':'] by simp]
      rw [show digitChars t.id ++ ('*' :: '*' :: ':' :: ' ' :: t.task)
          = digitChars t.id ++ '*' :: ('*' :: ':' :: ' ' :: t.task) by simp]
      rw [startsWithL_cancel]
      simp [startsWithL]
    · have hne : (t.id == id) = false := by simp [hid]
      rw [hne]
      by_contra hcon
      have htrue : startsWithL
          (digitChars t.id ++ '*' :: ('*' :: ':' :: ' ' :: t.task))
          (digitChars id ++ '*' :: ['*', ':']) = true := by
        revert hcon
        rw [show digitChars t.id ++ ('*' :: '*' :: ':' :: ' ' :: t.task)
            = digitChars t.id ++ '*' :: ('*' :: ':' :: ' ' :: t.task) by simp,
          show digitChars id ++ ['*', '*', ':'] = digitChars id ++ '*' :: ['*', ':'] by simp]
        intro hcon
        cases hx : startsWithL (digitChars t.id ++ '*' :: ('*' :: ':' :: ' ' :: t.task))
            (digitChars id ++ '*' :: ['*', ':'])
        · exact absurd hx hcon
        · rfl
      exact hid (digitChars_inj (star_pref _ _ hDid hDt _ _ htrue)).symm

theorem idMatch_hdr (st : TaskStatus) (id : Nat) :
    (startsWithL (statusHeader st) (idPatU id)
      || startsWithL (statusHeader st) (idPatC id)) = false := by
  cases st <;>
    simp [statusHeader, hdrSel, hdrInc, hdrComp, idPatU, idPatC, boxU, boxC,
      startsWithL]

theorem idMatch_blank (id : Nat) :
    (startsWithL ([] : Line) (idPatU id)
      || startsWithL ([] : Line) (idPatC id)) = false := by
  simp [idPatU, idPatC, boxU, boxC, startsWithL]

theorem idMatch_sep (id : Nat) :
    (startsWithL sepLine (idPatU id)
      || startsWithL sepLine (idPatC id)) = false := by
  simp [sepLine, idPatU, idPatC, boxU, boxC, startsWithL]

/-! ### Locating sections in a well-formed document -/

def blockSel (S : List Task) : List Line := secLines hdrSel (S.map encodeLine)

def blockInc (I : List Task) : List Line := secLines hdrInc (I.map encodeLine)

def blockComp (C : List Task) : List Line := secLines hdrComp (C.map encodeLine)

def preInc (S : List Task) : List Line := blockSel S ++ [([] : Line)]

def preComp (S I : List Task) : List Line :=
  blockSel S ++ [([] : Line)] ++ blockInc I ++ [([] : Line)]

theorem mkDocT_shape_sel (S I C : List Task) :
    mkDocT S I C
      = blockSel S ++ ([([] : Line)] ++ blockInc I
          ++ [([] : Line)] ++ blockComp C) := by
  simp [mkDocT, mkDoc, blockSel, blockInc, blockComp]

theorem mkDocT_shape_inc (S I C : List Task) :
    mkDocT S I C
      = preInc S ++ (blockInc I ++ ([([] : Line)] ++ blockComp C)) := by
  simp [mkDocT, mkDoc, blockSel, blockInc, blockComp, preInc]

theorem mkDocT_shape_comp (S I C : List Task) :
    mkDocT S I C = preComp S I ++ (blockComp C ++ []) := by
  simp [mkDocT, mkDoc, blockSel, blockInc, blockComp, preComp]

theorem map_enc_eq_nil (ts : List Task) :
    (ts.map encodeLine = []) = (ts = []) := by
  simp

theorem length_spacerTail (ts : List Task) :
    (spacerTail (ts.map encodeLine)).length = tlen ts := by
  by_cases h : ts = [] <;> simp [spacerTail, tlen, h]

theorem length_secLines (h : Line) (ts : List Task) :
    (secLines h (ts.map encodeLine)).length = slen ts := by
  simp [secLines, slen, length_spacerTail]
  omega

theorem length_preInc (S : List Task) : (preInc S).length = slen S + 1 := by
  simp [preInc, blockSel, length_secLines]

theorem length_preComp (S I : List Task) :
    (preComp S I).length = slen S + slen I + 2 := by
  simp [preComp, blockSel, blockInc, length_secLines]
  omega

theorem mem_spacerTail {x : Line} {ts : List Line} (h : x ∈ spacerTail ts) :
    x ∈ ts ∨ x = [] := by
  by_cases hts : ts = []
  · simp [spacerTail, hts] at h
  · simp [spacerTail, hts] at h
    rcases h with h | h
    · exact Or.inl h
    · exact Or.inr h

theorem mem_secLines {x h : Line} {ts : List Line} (hx : x ∈ secLines h ts) :
    x = h ∨ x = [] ∨ x ∈ ts ∨ x = sepLine := by
  simp only [secLines, List.mem_cons, List.mem_append, List.mem_singleton,
    List.not_mem_nil, or_false] at hx
  rcases hx with rfl | rfl | hx | rfl
  · exact Or.inl rfl
  · exact Or.inr (Or.inl rfl)
  · rcases mem_spacerTail hx with hx | rfl
    · exact Or.inr (Or.inr (Or.inl hx))
    · exact Or.inr (Or.inl rfl)
  · exact Or.inr (Or.inr (Or.inr rfl))

theorem firstIdx_block_sep (h : Line) (ts : List Task) (B : List Line)
    (hh : (h == sepLine) = false) :
    firstIdx (fun l => l == sepLine) (secLines h (ts.map encodeLine) ++ B)
      = some (2 + tlen ts) := by
  have hsp : firstIdx (fun l => l == sepLine) (spacerTail (ts.map encodeLine))
      = none := by
    rw [firstIdx_none_iff]
    intro x hx
    rcases mem_spacerTail hx with hx | rfl
    · obtain ⟨t, _, rfl⟩ := List.mem_map.mp hx
      exact enc_beq_sep t
    · exact blank_beq_sep
  have hstep : secLines h (ts.map encodeLine) ++ B
      = h :: ([] : Line)
        :: (spacerTail (ts.map encodeLine) ++ (sepLine :: B)) := by
    simp [secLines]
  have hfi : firstIdx (fun l => l == sepLine) (sepLine :: B) = some 0 :=
    firstIdx_cons_true (fun l => l == sepLine) B (by simp)
  rw [hstep, firstIdx_cons_false (fun l => l == sepLine) _ hh,
    firstIdx_cons_false (fun l => l == sepLine) _ blank_beq_sep,
    firstIdx_append_none _ hsp, hfi]
  simp [length_spacerTail]
  omega

theorem firstIdx_block_skip (target h : Line) (ts : List Task) (B : List Line)
    (hh : (h == target) = false) (hsep : (sepLine == target) = false)
    (hblank : (([] : Line) == target) = false)
    (henc : ∀ t : Task, (encodeLine t == target) = false) :
    firstIdx (fun l => l == target) (secLines h (ts.map encodeLine) ++ B)
      = (firstIdx (fun l => l == target) B).map (fun i => slen ts + i) := by
  have hall : firstIdx (fun l => l == target) (secLines h (ts.map encodeLine))
      = none := by
    rw [firstIdx_none_iff]
    intro x hx
    rcases mem_secLines hx with rfl | rfl | hx | rfl
    · exact hh
    · exact hblank
    · obtain ⟨t, _, rfl⟩ := List.mem_map.mp hx
      exact henc t
    · exact hsep
  rw [firstIdx_append_none _ hall, length_secLines]

theorem drop_append_len {A : List α} (B : List α) {n : Nat} (h : A.length = n) :
    (A ++ B).drop n = B := by
  subst h
  exact List.drop_left A B

theorem firstIdx_block_self {target : Line} (h : Line) (tsm B : List Line)
    (hh : (h == target) = true) :
    firstIdx (fun l => l == target) (secLines h tsm ++ B) = some 0 := by
  have hstep : secLines h tsm ++ B
      = h :: (([] : Line) :: ((spacerTail tsm ++ [sepLine]) ++ B)) := by
    simp [secLines]
  rw [hstep]
  exact firstIdx_cons_true _ _ hh

theorem sec_start_sel (S I C : List Task) :
    get_section_start (mkDocT S I C) .Selected = some 0 := by
  rw [get_section_start, mkDocT_shape_sel]
  exact firstIdx_block_self hdrSel _ _ (by decide)

theorem sec_start_inc (S I C : List Task) :
    get_section_start (mkDocT S I C) .Incomplete = some (slen S + 1) := by
  rw [get_section_start, mkDocT_shape_sel,
    show blockSel S = secLines hdrSel (S.map encodeLine) from rfl]
  rw [firstIdx_block_skip (statusHeader .Incomplete) hdrSel S _ (by decide)
    (by decide) (by decide) (fun t => enc_beq_hdr t .Incomplete)]
  have hR : [([] : Line)] ++ blockInc I ++ [([] : Line)] ++ blockComp C
      = ([] : Line) :: (blockInc I ++ ([([] : Line)] ++ blockComp C)) := by
    simp
  rw [hR, firstIdx_cons_false (fun l => l == statusHeader .Incomplete) _ (by decide)]
  rw [show blockInc I = secLines hdrInc (I.map encodeLine) from rfl]
  rw [firstIdx_block_self hdrInc _ _ (by decide)]
  rfl

theorem sec_start_comp (S I C : List Task) :
    get_section_start (mkDocT S I C) .Complete
      = some (slen S + slen I + 2) := by
  rw [get_section_start, mkDocT_shape_sel,
    show blockSel S = secLines hdrSel (S.map encodeLine) from rfl]
  rw [firstIdx_block_skip (statusHeader .Complete) hdrSel S _ (by decide)
    (by decide) (by decide) (fun t => enc_beq_hdr t .Complete)]
  have hR : [([] : Line)] ++ blockInc I ++ [([] : Line)] ++ blockComp C
      = ([] : Line)
        :: (secLines hdrInc (I.map encodeLine)
          ++ (([] : Line) :: blockComp C)) := by
    simp [blockInc, secLines]
  rw [hR, firstIdx_cons_false (fun l => l == statusHeader .Complete) _ (by decide)]
  rw [firstIdx_block_skip (statusHeader .Complete) hdrInc I _ (by decide)
    (by decide) (by decide) (fun t => enc_beq_hdr t .Complete)]
  rw [firstIdx_cons_false (fun l => l == statusHeader .Complete) _ (by decide)]
  have hself := @firstIdx_block_self (statusHeader .Complete) hdrComp
    (C.map encodeLine) [] (by decide)
  rw [List.append_nil] at hself
  rw [show blockComp C = secLines hdrComp (C.map encodeLine) from rfl, hself]
  simp only [Option.map_some', Option.some.injEq]
  unfold slen
  omega

theorem sec_end_sel (S I C : List Task) :
    get_section_end (mkDocT S I C) 0 = some (2 + tlen S) := by
  rw [get_section_end, List.drop_zero, mkDocT_shape_sel]
  rw [show blockSel S = secLines hdrSel (S.map encodeLine) from rfl]
  rw [firstIdx_block_sep hdrSel S _ (by decide)]
  simp

theorem sec_end_inc (S I C : List Task) :
    get_section_end (mkDocT S I C) (slen S + 1)
      = some (slen S + 3 + tlen I) := by
  rw [get_section_end, mkDocT_shape_inc,
    drop_append_len _ (length_preInc S)]
  rw [show blockInc I = secLines hdrInc (I.map encodeLine) from rfl]
  rw [firstIdx_block_sep hdrInc I _ (by decide)]
  simp only [Option.map_some', Option.some.injEq]
  omega

theorem sec_end_comp (S I C : List Task) :
    get_section_end (mkDocT S I C) (slen S + slen I + 2)
      = some (slen S + slen I + 4 + tlen C) := by
  rw [get_section_end, mkDocT_shape_comp,
    drop_append_len _ (length_preComp S I)]
  rw [show blockComp C ++ [] = secLines hdrComp (C.map encodeLine) ++ [] from rfl]
  rw [firstIdx_block_sep hdrComp C _ (by decide)]
  simp only [Option.map_some', Option.some.injEq]
  omega

theorem sec_indexes_sel (S I C : List Task) :
    get_section_indexes (mkDocT S I C) .Selected = some (0, 2 + tlen S) := by
  rw [get_section_indexes, sec_start_sel]
  simp [sec_end_sel]

theorem sec_indexes_inc (S I C : List Task) :
    get_section_indexes (mkDocT S I C) .Incomplete
      = some (slen S + 1, slen S + 3 + tlen I) := by
  rw [get_section_indexes, sec_start_inc]
  simp [sec_end_inc]

theorem sec_indexes_comp (S I C : List Task) :
    get_section_indexes (mkDocT S I C) .Complete
      = some (slen S + slen I + 2, slen S + slen I + 4 + tlen C) := by
  rw [get_section_indexes, sec_start_comp]
  simp [sec_end_comp]

/-! ### Section slices, task counts, and task lookup -/

theorem take_two_add (n : Nat) (a b : Line) (l : List Line) :
    (a :: b :: l).take (2 + n) = a :: b :: l.take n := by
  have h : 2 + n = n + 2 := by omega
  rw [h]
  rfl

theorem take_append_len {A : List α} (B : List α) {n : Nat} (h : A.length = n) :
    (A ++ B).take n = A := by
  subst h
  exact List.take_left A B

theorem slice_sel (S I C : List Task) :
    sliceL (mkDocT S I C) 0 (2 + tlen S) = secSlice hdrSel S := by
  rw [sliceL, List.drop_zero, Nat.sub_zero, mkDocT_shape_sel]
  have hstep : blockSel S ++ ([([] : Line)] ++ blockInc I
      ++ [([] : Line)] ++ blockComp C)
      = hdrSel :: ([] : Line)
        :: (spacerTail (S.map encodeLine)
          ++ ([sepLine] ++ ([([] : Line)] ++ blockInc I
            ++ [([] : Line)] ++ blockComp C))) := by
    simp [blockSel, secLines]
  rw [hstep, take_two_add, take_append_len _ (length_spacerTail S), secSlice]

theorem slice_inc (S I C : List Task) :
    sliceL (mkDocT S I C) (slen S + 1) (slen S + 3 + tlen I)
      = secSlice hdrInc I := by
  rw [sliceL, mkDocT_shape_inc, drop_append_len _ (length_preInc S)]
  have harith : slen S + 3 + tlen I - (slen S + 1) = 2 + tlen I := by omega
  rw [harith]
  have hstep : blockInc I ++ ([([] : Line)] ++ blockComp C)
      = hdrInc :: ([] : Line)
        :: (spacerTail (I.map encodeLine)
          ++ ([sepLine] ++ ([([] : Line)] ++ blockComp C))) := by
    simp [blockInc, secLines]
  rw [hstep, take_two_add, take_append_len _ (length_spacerTail I), secSlice]

theorem slice_comp (S I C : List Task) :
    sliceL (mkDocT S I C) (slen S + slen I + 2) (slen S + slen I + 4 + tlen C)
      = secSlice hdrComp C := by
  rw [sliceL, mkDocT_shape_comp, drop_append_len _ (length_preComp S I)]
  have harith : slen S + slen I + 4 + tlen C - (slen S + slen I + 2)
      = 2 + tlen C := by omega
  rw [harith]
  have hstep : blockComp C ++ []
      = hdrComp :: ([] : Line)
        :: (spacerTail (C.map encodeLine) ++ [sepLine]) := by
    simp [blockComp, secLines]
  rw [hstep, take_two_add, take_append_len _ (length_spacerTail C), secSlice]

theorem get_section_comp (S I C : List Task) :
    get_section (mkDocT S I C) .Complete = some (secSlice hdrComp C) := by
  rw [get_section, sec_indexes_comp]
  simp [slice_comp]

theorem count_secSlice (h : Line) (ts : List Task) :
    get_task_count_in_section (secSlice h ts) = ts.length := by
  rw [get_task_count_in_section, secSlice]
  by_cases hts : ts = []
  · simp [hts, spacerTail]
  · have hsp : spacerTail (ts.map encodeLine)
        = ts.map encodeLine ++ [([] : Line)] := by
      simp [spacerTail, hts]
    have hdrop : ((h :: ([] : Line) :: spacerTail (ts.map encodeLine)).drop 2)
        = ts.map encodeLine ++ [([] : Line)] := by
      simp [hsp]
    rw [hdrop, takeWhile_append_all _ (by
      intro a ha
      obtain ⟨t, _, rfl⟩ := List.mem_map.mp ha
      exact taskish_enc t)]
    simp [List.takeWhile, blank_not_taskish]

theorem idx_secSlice (h : Line) (ts : List Task) (id : Nat)
    (hh : (startsWithL h (idPatU id) || startsWithL h (idPatC id)) = false) :
    get_task_idx_in_section (secSlice h ts) id
      = (firstIdx (fun t => t.id == id) ts).map (fun k => 2 + k) := by
  rw [get_task_idx_in_section, secSlice]
  rw [firstIdx_cons_false
      (fun l => startsWithL l (idPatU id) || startsWithL l (idPatC id)) _ hh,
    firstIdx_cons_false
      (fun l => startsWithL l (idPatU id) || startsWithL l (idPatC id)) _
      (idMatch_blank id)]
  have hmap : firstIdx
      (fun l => startsWithL l (idPatU id) || startsWithL l (idPatC id))
      (ts.map encodeLine) = firstIdx (fun t => t.id == id) ts := by
    rw [firstIdx_map]
    exact firstIdx_congr fun t _ => idMatch_enc t id
  by_cases hts : ts = []
  · simp [hts, spacerTail, firstIdx]
  · have hsp : spacerTail (ts.map encodeLine)
        = ts.map encodeLine ++ [([] : Line)] := by
      simp [spacerTail, hts]
    rw [hsp]
    cases hfi : firstIdx (fun t => t.id == id) ts with
    | some k =>
      rw [firstIdx_append_some _ (by rw [hmap, hfi])]
      simp
      omega
    | none =>
      rw [firstIdx_append_none _ (by rw [hmap, hfi])]
      have : firstIdx
          (fun l => startsWithL l (idPatU id) || startsWithL l (idPatC id))
          [([] : Line)] = none := by
        simp [firstIdx, idMatch_blank id]
      rw [this]
      rfl

theorem getAt_map_enc {ts : List Task} {k : Nat} (hk : k < ts.length) :
    getAt (ts.map encodeLine) k = encodeLine (taskAt ts k) := by
  unfold getAt taskAt
  induction ts generalizing k with
  | nil => cases hk
  | cons t ts ih =>
    cases k with
    | zero => rfl
    | succ k => simpa [List.getD] using ih (by simpa using hk)

theorem getAt_block (A B : List Line) (h : Line) (ts : List Task) {k i : Nat}
    (hk : k < ts.length) (hi : i = A.length + (2 + k)) :
    getAt (A ++ (secLines h (ts.map encodeLine) ++ B)) i
      = encodeLine (taskAt ts k) := by
  subst hi
  rw [getAt_append_off]
  have hts : ts ≠ [] := by
    intro hcon
    rw [hcon] at hk
    cases hk
  have hstep : secLines h (ts.map encodeLine) ++ B
      = h :: ([] : Line)
        :: (ts.map encodeLine ++ (([] : Line) :: sepLine :: B)) := by
    simp [secLines, spacerTail, hts]
  rw [hstep]
  have hcons : getAt (h :: ([] : Line)
      :: (ts.map encodeLine ++ (([] : Line) :: sepLine :: B))) (2 + k)
      = getAt (ts.map encodeLine ++ (([] : Line) :: sepLine :: B)) k := by
    have h2 : 2 + k = k + 2 := by omega
    rw [h2]
    rfl
  rw [hcons, getAt_append_lt _ (by simpa using hk), getAt_map_enc hk]

/-! ### Removing a task line and inserting at the top of a section -/

theorem rem_block (A B : List Line) (h : Line) (tsm : List Line) {k i : Nat}
    (hk : k < tsm.length) (hi : i = A.length + (2 + k)) :
    (if tsm.length = 1
      then removeAt i (removeAt i (A ++ (secLines h tsm ++ B)))
      else removeAt i (A ++ (secLines h tsm ++ B)))
      = A ++ (secLines h (removeAt k tsm) ++ B) := by
  subst hi
  have hts : tsm ≠ [] := by
    intro hcon
    rw [hcon] at hk
    cases hk
  have hstep : secLines h tsm ++ B
      = h :: ([] : Line) :: (tsm ++ (([] : Line) :: sepLine :: B)) := by
    simp [secLines, spacerTail, hts]
  by_cases h1 : tsm.length = 1
  · obtain ⟨x, hx⟩ := List.length_eq_one.mp h1
    subst hx
    have hk0 : k = 0 := by
      simp at hk
      omega
    subst hk0
    rw [if_pos h1, hstep, removeAt_append_off A, removeAt_append_off A,
      removeAt_two_add]
    simp [removeAt, secLines, spacerTail, removeAt_two_add]
  · have hge : 2 ≤ tsm.length := by omega
    have hne2 : removeAt k tsm ≠ [] := by
      intro hcon
      have := length_removeAt hk
      rw [hcon] at this
      simp at this
      omega
    rw [if_neg h1, hstep, removeAt_append_off A, removeAt_two_add,
      removeAt_append_lt _ hk]
    simp [secLines, spacerTail, hne2]

theorem ins_block_cons (A B : List Line) (h x : Line) (tsm : List Line)
    (hts : tsm ≠ []) {i : Nat} (hi : i = A.length + 2) :
    insertAt i x (A ++ (secLines h tsm ++ B))
      = A ++ (secLines h (x :: tsm) ++ B) := by
  subst hi
  have hstep : secLines h tsm ++ B
      = h :: ([] : Line) :: (tsm ++ (([] : Line) :: sepLine :: B)) := by
    simp [secLines, spacerTail, hts]
  rw [hstep, insertAt_append_off A, show (2 : Nat) = 2 + 0 from rfl,
    insertAt_two_add]
  simp [insertAt, secLines, spacerTail]

theorem ins_block_nil (A B : List Line) (h x : Line) {e i : Nat}
    (he : e = A.length + 2) (hi : i = A.length + 2) :
    insertAt i x (insertAt e ([] : Line) (A ++ (secLines h [] ++ B)))
      = A ++ (secLines h [x] ++ B) := by
  subst he
  subst hi
  have hstep : secLines h [] ++ B = h :: ([] : Line) :: sepLine :: B := by
    simp [secLines, spacerTail]
  rw [hstep, insertAt_append_off A, insertAt_append_off A,
    show (2 : Nat) = 2 + 0 from rfl, insertAt_two_add, insertAt_two_add]
  simp [insertAt, secLines, spacerTail]

/-! ### Rewriting the checkbox character -/

theorem set3_x (t : Task) :
    (encodeLine t).set 3 'x'
      = encodeLine ⟨t.id, t.task, .Complete⟩ := by
  by_cases h : t.task_status = .Complete <;>
    simp [encodeLine, h, boxU, boxC, List.set]

theorem set3_space (t : Task) :
    (encodeLine t).set 3 ' '
      = encodeLine ⟨t.id, t.task, .Incomplete⟩ := by
  by_cases h : t.task_status = .Complete <;>
    simp [encodeLine, h, boxU, boxC, List.set]

theorem enc_sel_eq_inc (id : Nat) (txt : Line) :
    encodeLine ⟨id, txt, .Selected⟩ = encodeLine ⟨id, txt, .Incomplete⟩ := by
  simp [encodeLine]

/-! ### Per-section specializations on well-formed documents -/

theorem rem_sel (S I C : List Task) {k i : Nat} (hk : k < S.length)
    (hi : i = 2 + k + 0) :
    (if S.length = 1
      then removeAt i (removeAt i (mkDocT S I C))
      else removeAt i (mkDocT S I C))
      = mkDocT (removeAt k S) I C := by
  have hkm : k < (S.map encodeLine).length := by simpa using hk
  have hrb := rem_block [] ([([] : Line)] ++ blockInc I ++ [([] : Line)]
    ++ blockComp C) hdrSel (S.map encodeLine) hkm
    (show i = ([] : List Line).length + (2 + k) by simpa using hi)
  simp only [List.nil_append, List.length_map, removeAt_map] at hrb
  rw [mkDocT_shape_sel S I C, mkDocT_shape_sel (removeAt k S) I C,
    show blockSel S = secLines hdrSel (S.map encodeLine) from rfl,
    show blockSel (removeAt k S)
      = secLines hdrSel ((removeAt k S).map encodeLine) from rfl]
  exact hrb

theorem rem_inc (S I C : List Task) {k i : Nat} (hk : k < I.length)
    (hi : i = 2 + k + (slen S + 1)) :
    (if I.length = 1
      then removeAt i (removeAt i (mkDocT S I C))
      else removeAt i (mkDocT S I C))
      = mkDocT S (removeAt k I) C := by
  have hkm : k < (I.map encodeLine).length := by simpa using hk
  have hrb := rem_block (preInc S) ([([] : Line)] ++ blockComp C) hdrInc
    (I.map encodeLine) hkm
    (show i = (preInc S).length + (2 + k) by rw [length_preInc]; omega)
  simp only [List.length_map, removeAt_map] at hrb
  rw [mkDocT_shape_inc S I C, mkDocT_shape_inc S (removeAt k I) C,
    show blockInc I = secLines hdrInc (I.map encodeLine) from rfl,
    show blockInc (removeAt k I)
      = secLines hdrInc ((removeAt k I).map encodeLine) from rfl]
  exact hrb

theorem rem_comp (S I C : List Task) {k i : Nat} (hk : k < C.length)
    (hi : i = 2 + k + (slen S + slen I + 2)) :
    (if C.length = 1
      then removeAt i (removeAt i (mkDocT S I C))
      else removeAt i (mkDocT S I C))
      = mkDocT S I (removeAt k C) := by
  have hkm : k < (C.map encodeLine).length := by simpa using hk
  have hrb := rem_block (preComp S I) [] hdrComp (C.map encodeLine) hkm
    (show i = (preComp S I).length + (2 + k) by rw [length_preComp]; omega)
  simp only [List.length_map, removeAt_map] at hrb
  rw [mkDocT_shape_comp S I C, mkDocT_shape_comp S I (removeAt k C),
    show blockComp C = secLines hdrComp (C.map encodeLine) from rfl,
    show blockComp (removeAt k C)
      = secLines hdrComp ((removeAt k C).map encodeLine) from rfl]
  exact hrb

theorem getAt_sel (S I C : List Task) {k i : Nat} (hk : k < S.length)
    (hi : i = 2 + k + 0) :
    getAt (mkDocT S I C) i = encodeLine (taskAt S k) := by
  have := getAt_block [] ([([] : Line)] ++ blockInc I ++ [([] : Line)]
    ++ blockComp C) hdrSel S hk
    (show i = ([] : List Line).length + (2 + k) by simpa using hi)
  simpa [mkDocT_shape_sel S I C,
    show blockSel S = secLines hdrSel (S.map encodeLine) from rfl] using this

theorem getAt_inc (S I C : List Task) {k i : Nat} (hk : k < I.length)
    (hi : i = 2 + k + (slen S + 1)) :
    getAt (mkDocT S I C) i = encodeLine (taskAt I k) := by
  have := getAt_block (preInc S) ([([] : Line)] ++ blockComp C) hdrInc I hk
    (show i = (preInc S).length + (2 + k) by rw [length_preInc]; omega)
  rw [mkDocT_shape_inc S I C,
    show blockInc I = secLines hdrInc (I.map encodeLine) from rfl]
  exact this

theorem getAt_comp (S I C : List Task) {k i : Nat} (hk : k < C.length)
    (hi : i = 2 + k + (slen S + slen I + 2)) :
    getAt (mkDocT S I C) i = encodeLine (taskAt C k) := by
  have := getAt_block (preComp S I) [] hdrComp C hk
    (show i = (preComp S I).length + (2 + k) by rw [length_preComp]; omega)
  rw [mkDocT_shape_comp S I C,
    show blockComp C = secLines hdrComp (C.map encodeLine) from rfl]
  exact this

theorem ins_sel (S I C : List Task) (t : Task) {ds de : Nat} (hds : ds = 0)
    (hde : de = 2 + tlen S) :
    insertAt (ds + 2) (encodeLine t)
      (if de - ds = 2 then insertAt de ([] : Line) (mkDocT S I C)
        else mkDocT S I C)
      = mkDocT (t :: S) I C := by
  subst hds
  subst hde
  by_cases hS : S = []
  · subst hS
    rw [if_pos (by simp [tlen])]
    have hib := ins_block_nil [] ([([] : Line)] ++ blockInc I ++ [([] : Line)]
      ++ blockComp C) hdrSel (encodeLine t)
      (show 2 + tlen ([] : List Task) = ([] : List Line).length + 2 by
        simp [tlen])
      (show 0 + 2 = ([] : List Line).length + 2 by simp)
    simp only [List.nil_append] at hib
    rw [mkDocT_shape_sel [] I C, mkDocT_shape_sel [t] I C,
      show blockSel [] = secLines hdrSel ([] : List Line) from rfl,
      show blockSel [t] = secLines hdrSel [encodeLine t] from rfl]
    exact hib
  · rw [if_neg (by simp [tlen, hS] <;> omega)]
    have hib := ins_block_cons [] ([([] : Line)] ++ blockInc I ++ [([] : Line)]
      ++ blockComp C) hdrSel (encodeLine t) (S.map encodeLine)
      (by simpa using hS)
      (show 0 + 2 = ([] : List Line).length + 2 by simp)
    simp only [List.nil_append] at hib
    rw [mkDocT_shape_sel S I C, mkDocT_shape_sel (t :: S) I C,
      show blockSel S = secLines hdrSel (S.map encodeLine) from rfl,
      show blockSel (t :: S)
        = secLines hdrSel (encodeLine t :: S.map encodeLine) from rfl]
    exact hib

theorem ins_inc (S I C : List Task) (t : Task) {ds de : Nat}
    (hds : ds = slen S + 1) (hde : de = slen S + 3 + tlen I) :
    insertAt (ds + 2) (encodeLine t)
      (if de - ds = 2 then insertAt de ([] : Line) (mkDocT S I C)
        else mkDocT S I C)
      = mkDocT S (t :: I) C := by
  subst hds
  subst hde
  by_cases hI : I = []
  · subst hI
    rw [if_pos (by simp [tlen])]
    have hib := ins_block_nil (preInc S) ([([] : Line)] ++ blockComp C) hdrInc
      (encodeLine t)
      (show slen S + 3 + tlen ([] : List Task) = (preInc S).length + 2 by
        rw [length_preInc]; simp [tlen])
      (show slen S + 1 + 2 = (preInc S).length + 2 by rw [length_preInc])
    rw [mkDocT_shape_inc S [] C, mkDocT_shape_inc S [t] C,
      show blockInc [] = secLines hdrInc ([] : List Line) from rfl,
      show blockInc [t] = secLines hdrInc [encodeLine t] from rfl]
    exact hib
  · rw [if_neg (by simp [tlen, hI] <;> omega)]
    have hib := ins_block_cons (preInc S) ([([] : Line)] ++ blockComp C) hdrInc
      (encodeLine t) (I.map encodeLine) (by simpa using hI)
      (show slen S + 1 + 2 = (preInc S).length + 2 by rw [length_preInc])
    rw [mkDocT_shape_inc S I C, mkDocT_shape_inc S (t :: I) C,
      show blockInc I = secLines hdrInc (I.map encodeLine) from rfl,
      show blockInc (t :: I)
        = secLines hdrInc (encodeLine t :: I.map encodeLine) from rfl]
    exact hib

theorem ins_comp (S I C : List Task) (t : Task) {ds de : Nat}
    (hds : ds = slen S + slen I + 2) (hde : de = slen S + slen I + 4 + tlen C) :
    insertAt (ds + 2) (encodeLine t)
      (if de - ds = 2 then insertAt de ([] : Line) (mkDocT S I C)
        else mkDocT S I C)
      = mkDocT S I (t :: C) := by
  subst hds
  subst hde
  by_cases hC : C = []
  · subst hC
    rw [if_pos (by simp [tlen])]
    have hib := ins_block_nil (preComp S I) [] hdrComp (encodeLine t)
      (show slen S + slen I + 4 + tlen ([] : List Task)
          = (preComp S I).length + 2 by
        rw [length_preComp]; simp [tlen])
      (show slen S + slen I + 2 + 2 = (preComp S I).length + 2 by
        rw [length_preComp])
    rw [mkDocT_shape_comp S I [], mkDocT_shape_comp S I [t],
      show blockComp [] = secLines hdrComp ([] : List Line) from rfl,
      show blockComp [t] = secLines hdrComp [encodeLine t] from rfl]
    exact hib
  · rw [if_neg (by simp [tlen, hC] <;> omega)]
    have hib := ins_block_cons (preComp S I) [] hdrComp (encodeLine t)
      (C.map encodeLine) (by simpa using hC)
      (show slen S + slen I + 2 + 2 = (preComp S I).length + 2 by
        rw [length_preComp])
    rw [mkDocT_shape_comp S I C, mkDocT_shape_comp S I (t :: C),
      show blockComp C = secLines hdrComp (C.map encodeLine) from rfl,
      show blockComp (t :: C)
        = secLines hdrComp (encodeLine t :: C.map encodeLine) from rfl]
    exact hib

/-! ### The four move operations on well-formed documents -/

theorem move_sel_comp (S I C : List Task) {k tidx : Nat} (hk : k < S.length)
    (ht : tidx = 2 + k + 0) :
    moveLines (mkDocT S I C) tidx S.length (some 'x') .Complete
      = .ok (mkDocT (removeAt k S) I
        ((⟨(taskAt S k).id, (taskAt S k).task, .Complete⟩ : Task) :: C)) := by
  subst ht
  simp only [moveLines]
  rw [getAt_sel S I C hk rfl, rem_sel S I C hk rfl, sec_indexes_comp]
  rw [set3_x (taskAt S k)]
  simp only []
  rw [ins_comp (removeAt k S) I C _ rfl rfl]

theorem move_inc_comp (S I C : List Task) {k tidx : Nat} (hk : k < I.length)
    (ht : tidx = 2 + k + (slen S + 1)) :
    moveLines (mkDocT S I C) tidx I.length (some 'x') .Complete
      = .ok (mkDocT S (removeAt k I)
        ((⟨(taskAt I k).id, (taskAt I k).task, .Complete⟩ : Task) :: C)) := by
  subst ht
  simp only [moveLines]
  rw [getAt_inc S I C hk rfl, rem_inc S I C hk rfl, sec_indexes_comp]
  rw [set3_x (taskAt I k)]
  simp only []
  rw [ins_comp S (removeAt k I) C _ rfl rfl]

theorem move_comp_sel (S I C : List Task) {k tidx : Nat} (hk : k < C.length)
    (ht : tidx = 2 + k + (slen S + slen I + 2)) :
    moveLines (mkDocT S I C) tidx C.length (some ' ') .Selected
      = .ok (mkDocT
        ((⟨(taskAt C k).id, (taskAt C k).task, .Selected⟩ : Task) :: S) I
        (removeAt k C)) := by
  subst ht
  simp only [moveLines]
  rw [getAt_comp S I C hk rfl, rem_comp S I C hk rfl, sec_indexes_sel]
  rw [set3_space (taskAt C k), ← enc_sel_eq_inc]
  simp only []
  rw [ins_sel S I (removeAt k C) _ rfl rfl]

theorem move_comp_inc (S I C : List Task) {k tidx : Nat} (hk : k < C.length)
    (ht : tidx = 2 + k + (slen S + slen I + 2)) :
    moveLines (mkDocT S I C) tidx C.length (some ' ') .Incomplete
      = .ok (mkDocT S
        ((⟨(taskAt C k).id, (taskAt C k).task, .Incomplete⟩ : Task) :: I)
        (removeAt k C)) := by
  subst ht
  simp only [moveLines]
  rw [getAt_comp S I C hk rfl, rem_comp S I C hk rfl, sec_indexes_inc]
  rw [set3_space (taskAt C k)]
  simp only []
  rw [ins_inc S I (removeAt k C) _ rfl rfl]

theorem move_inc_sel (S I C : List Task) {k tidx : Nat} (hk : k < I.length)
    (ht : tidx = 2 + k + (slen S + 1)) :
    moveLines (mkDocT S I C) tidx I.length none .Selected
      = .ok (mkDocT (taskAt I k :: S) (removeAt k I) C) := by
  subst ht
  simp only [moveLines]
  rw [getAt_inc S I C hk rfl, rem_inc S I C hk rfl, sec_indexes_sel]
  simp only []
  rw [ins_sel S (removeAt k I) C _ rfl rfl]

theorem move_sel_sel (S I C : List Task) {k tidx : Nat} (hk : k < S.length)
    (ht : tidx = 2 + k + 0) :
    moveLines (mkDocT S I C) tidx S.length none .Selected
      = .ok (mkDocT (taskAt S k :: removeAt k S) I C) := by
  subst ht
  simp only [moveLines]
  rw [getAt_sel S I C hk rfl, rem_sel S I C hk rfl, sec_indexes_sel]
  simp only []
  rw [ins_sel (removeAt k S) I C _ rfl rfl]

theorem move_sel_inc (S I C : List Task) {k tidx : Nat} (hk : k < S.length)
    (ht : tidx = 2 + k + 0) :
    moveLines (mkDocT S I C) tidx S.length none .Incomplete
      = .ok (mkDocT (removeAt k S) (taskAt S k :: I) C) := by
  subst ht
  simp only [moveLines]
  rw [getAt_sel S I C hk rfl, rem_sel S I C hk rfl, sec_indexes_inc]
  simp only []
  rw [ins_inc (removeAt k S) I C _ rfl rfl]

/-! ### Operation-level results on well-formed documents -/

theorem firstIdx_getD {p : α → Bool} {l : List α} {k : Nat} (d : α)
    (h : firstIdx p l = some k) : p (l.getD k d) = true := by
  induction l generalizing k with
  | nil => cases h
  | cons a l ih =>
    by_cases ha : p a = true
    · rw [firstIdx_cons_true p l ha] at h
      simp only [Option.some.injEq] at h
      rw [← h]
      simpa using ha
    · rw [firstIdx_cons_false p l (by simpa using ha)] at h
      cases hl : firstIdx p l with
      | none => rw [hl] at h; cases h
      | some j =>
        rw [hl] at h
        simp only [Option.map_some', Option.some.injEq] at h
        rw [← h]
        simpa [List.getD] using ih hl

theorem firstIdx_id_none {X : List Task} {id : Nat}
    (h : ∀ t ∈ X, t.id ≠ id) : firstIdx (fun t => t.id == id) X = none :=
  firstIdx_none_iff.mpr fun t ht => by simp [h t ht]

theorem firstIdx_id_taskAt {X : List Task} {id k : Nat}
    (h : firstIdx (fun t => t.id == id) X = some k) : (taskAt X k).id = id := by
  have := firstIdx_getD (⟨0, [], .Incomplete⟩ : Task) h
  simpa [taskAt] using this

theorem idx_none_of_id_none (h : Line) (X : List Task) (id : Nat)
    (hh : (startsWithL h (idPatU id) || startsWithL h (idPatC id)) = false)
    (hX : ∀ t ∈ X, t.id ≠ id) :
    get_task_idx_in_section (secSlice h X) id = none := by
  rw [idx_secSlice h X id hh, firstIdx_id_none hX]
  rfl

theorem idx_some_of_firstIdx (h : Line) (X : List Task) (id : Nat) {k : Nat}
    (hh : (startsWithL h (idPatU id) || startsWithL h (idPatC id)) = false)
    (hX : firstIdx (fun t => t.id == id) X = some k) :
    get_task_idx_in_section (secSlice h X) id = some (2 + k) := by
  rw [idx_secSlice h X id hh, hX]
  rfl

theorem check_ok_sel (S I C : List Task) (id : Nat) {k : Nat}
    (hS : firstIdx (fun t => t.id == id) S = some k)
    (hC : ∀ t ∈ C, t.id ≠ id) :
    checkOp (mkDocT S I C) id
      = .ok (mkDocT (removeAt k S) I
        ((⟨(taskAt S k).id, (taskAt S k).task, .Complete⟩ : Task) :: C)) := by
  have hk := firstIdx_some_lt hS
  have hidxC := idx_none_of_id_none hdrComp C id (idMatch_hdr .Complete id) hC
  have hidxS := idx_some_of_firstIdx hdrSel S id (idMatch_hdr .Selected id) hS
  simp only [checkOp, checkFind, get_section_comp, hidxC, sec_indexes_sel,
    slice_sel, hidxS, count_secSlice]
  exact move_sel_comp S I C hk rfl

theorem check_ok_inc (S I C : List Task) (id : Nat) {k : Nat}
    (hS : ∀ t ∈ S, t.id ≠ id)
    (hI : firstIdx (fun t => t.id == id) I = some k)
    (hC : ∀ t ∈ C, t.id ≠ id) :
    checkOp (mkDocT S I C) id
      = .ok (mkDocT S (removeAt k I)
        ((⟨(taskAt I k).id, (taskAt I k).task, .Complete⟩ : Task) :: C)) := by
  have hk := firstIdx_some_lt hI
  have hidxC := idx_none_of_id_none hdrComp C id (idMatch_hdr .Complete id) hC
  have hidxS := idx_none_of_id_none hdrSel S id (idMatch_hdr .Selected id) hS
  have hidxI := idx_some_of_firstIdx hdrInc I id (idMatch_hdr .Incomplete id) hI
  simp only [checkOp, checkFind, get_section_comp, hidxC, sec_indexes_sel,
    slice_sel, hidxS, sec_indexes_inc, slice_inc, hidxI, count_secSlice]
  exact move_inc_comp S I C hk rfl

theorem check_err_already (S I C : List Task) (id : Nat)
    (hC : ∃ t ∈ C, t.id = id) :
    checkOp (mkDocT S I C) id = .error .alreadyInTargetState := by
  obtain ⟨t, ht, hid⟩ := hC
  have hsome : (firstIdx (fun t => t.id == id) C).isSome = true :=
    firstIdx_isSome_iff.mpr ⟨t, ht, by simp [hid]⟩
  obtain ⟨c, hc⟩ := Option.isSome_iff_exists.mp hsome
  have hidxC := idx_some_of_firstIdx hdrComp C id (idMatch_hdr .Complete id) hc
  simp only [checkOp, get_section_comp, hidxC]

theorem check_err_notfound (S I C : List Task) (id : Nat)
    (hS : ∀ t ∈ S, t.id ≠ id) (hI : ∀ t ∈ I, t.id ≠ id)
    (hC : ∀ t ∈ C, t.id ≠ id) :
    checkOp (mkDocT S I C) id = .error .taskNotFound := by
  have hidxC := idx_none_of_id_none hdrComp C id (idMatch_hdr .Complete id) hC
  have hidxS := idx_none_of_id_none hdrSel S id (idMatch_hdr .Selected id) hS
  have hidxI := idx_none_of_id_none hdrInc I id (idMatch_hdr .Incomplete id) hI
  simp only [checkOp, checkFind, get_section_comp, hidxC, sec_indexes_sel,
    slice_sel, hidxS, sec_indexes_inc, slice_inc, hidxI]

theorem select_ok_inc (S I C : List Task) (id : Nat) {k : Nat}
    (hI : firstIdx (fun t => t.id == id) I = some k) :
    selectOp (mkDocT S I C) id
      = .ok (mkDocT (taskAt I k :: S) (removeAt k I) C) := by
  have hk := firstIdx_some_lt hI
  have hidxI := idx_some_of_firstIdx hdrInc I id (idMatch_hdr .Incomplete id) hI
  simp only [selectOp, selectFind, sec_indexes_inc, slice_inc, hidxI,
    count_secSlice]
  exact move_inc_sel S I C hk rfl

theorem select_err_notinc (S I C : List Task) (id : Nat)
    (hI : ∀ t ∈ I, t.id ≠ id) (hC : ∃ t ∈ C, t.id = id) :
    selectOp (mkDocT S I C) id = .error .notIncomplete := by
  obtain ⟨t, ht, hid⟩ := hC
  have hsome : (firstIdx (fun t => t.id == id) C).isSome = true :=
    firstIdx_isSome_iff.mpr ⟨t, ht, by simp [hid]⟩
  obtain ⟨c, hc⟩ := Option.isSome_iff_exists.mp hsome
  have hidxI := idx_none_of_id_none hdrInc I id (idMatch_hdr .Incomplete id) hI
  have hidxC := idx_some_of_firstIdx hdrComp C id (idMatch_hdr .Complete id) hc
  simp only [selectOp, selectFind, sec_indexes_inc, slice_inc, hidxI,
    get_section_comp, hidxC]

theorem select_ok_sel (S I C : List Task) (id : Nat) {k : Nat}
    (hI : ∀ t ∈ I, t.id ≠ id) (hC : ∀ t ∈ C, t.id ≠ id)
    (hS : firstIdx (fun t => t.id == id) S = some k) :
    selectOp (mkDocT S I C) id
      = .ok (mkDocT (taskAt S k :: removeAt k S) I C) := by
  have hk := firstIdx_some_lt hS
  have hidxI := idx_none_of_id_none hdrInc I id (idMatch_hdr .Incomplete id) hI
  have hidxC := idx_none_of_id_none hdrComp C id (idMatch_hdr .Complete id) hC
  have hidxS := idx_some_of_firstIdx hdrSel S id (idMatch_hdr .Selected id) hS
  simp only [selectOp, selectFind, sec_indexes_inc, slice_inc, hidxI,
    get_section_comp, hidxC, sec_indexes_sel, slice_sel, hidxS,
    count_secSlice]
  exact move_sel_sel S I C hk rfl

theorem uncheck_ok_sel (S I C : List Task) (id : Nat) {k : Nat}
    (hC : firstIdx (fun t => t.id == id) C = some k) :
    uncheckOp (mkDocT S I C) id true
      = .ok (mkDocT
        ((⟨(taskAt C k).id, (taskAt C k).task, .Selected⟩ : Task) :: S) I
        (removeAt k C)) := by
  have hk := firstIdx_some_lt hC
  have hidxC := idx_some_of_firstIdx hdrComp C id (idMatch_hdr .Complete id) hC
  simp only [uncheckOp, sec_indexes_comp, slice_comp, hidxC, count_secSlice]
  exact move_comp_sel S I C hk rfl

theorem uncheck_ok_inc (S I C : List Task) (id : Nat) {k : Nat}
    (hC : firstIdx (fun t => t.id == id) C = some k) :
    uncheckOp (mkDocT S I C) id false
      = .ok (mkDocT S
        ((⟨(taskAt C k).id, (taskAt C k).task, .Incomplete⟩ : Task) :: I)
        (removeAt k C)) := by
  have hk := firstIdx_some_lt hC
  have hidxC := idx_some_of_firstIdx hdrComp C id (idMatch_hdr .Complete id) hC
  simp only [uncheckOp, sec_indexes_comp, slice_comp, hidxC, count_secSlice]
  exact move_comp_inc S I C hk rfl

theorem deselect_ok (S I C : List Task) (id : Nat) {k : Nat}
    (hS : firstIdx (fun t => t.id == id) S = some k) :
    deselectOp (mkDocT S I C) id
      = .ok (mkDocT (removeAt k S) (taskAt S k :: I) C) := by
  have hk := firstIdx_some_lt hS
  have hidxS := idx_some_of_firstIdx hdrSel S id (idMatch_hdr .Selected id) hS
  simp only [deselectOp, sec_indexes_sel, slice_sel, hidxS, count_secSlice]
  exact move_sel_inc S I C hk rfl

theorem deselect_err_notfound (S I C : List Task) (id : Nat)
    (hS : ∀ t ∈ S, t.id ≠ id) :
    deselectOp (mkDocT S I C) id = .error .taskNotFound := by
  have hidxS := idx_none_of_id_none hdrSel S id (idMatch_hdr .Selected id) hS
  simp only [deselectOp, sec_indexes_sel, slice_sel, hidxS]

theorem enc_unchecked (id : Nat) (txt : Line) :
    boxU ++ digitChars id ++ starColon ++ txt
      = encodeLine ⟨id, txt, .Incomplete⟩ := by
  simp [encodeLine]

theorem add_ok (S I C : List Task) (txt : Line) :
    addOp (mkDocT S I C) txt
      = .ok (mkDocT S
          ((⟨get_next_id (mkDocT S I C), txt, .Incomplete⟩ : Task) :: I) C,
        get_next_id (mkDocT S I C)) := by
  simp only [addOp, sec_indexes_inc, enc_unchecked]
  rw [show slen S + 1 + 2 = slen S + 1 + 2 from rfl]
  rw [ins_inc S I C _ rfl rfl]

/-! ### The id allocator on well-formed documents -/

theorem gtid_hdrSel : get_task_id hdrSel = none := by decide

theorem gtid_hdrInc : get_task_id hdrInc = none := by decide

theorem gtid_hdrComp : get_task_id hdrComp = none := by decide

theorem gtid_sep : get_task_id sepLine = none := by decide

theorem gtid_blank : get_task_id ([] : Line) = none := by decide

theorem drop8_box (b r : Line) (hb : b.length = 8) : (b ++ r).drop 8 = r :=
  drop_append_len r hb

theorem takeWhile_digits_star (n : Nat) (r : Line) :
    (digitChars n ++ '*' :: r).takeWhile (fun c => c != '*')
      = digitChars n := by
  rw [takeWhile_append_all _ (fun c hc => by
    simp [digitChars_ne_star n c hc])]
  simp [List.takeWhile]

theorem gtid_enc {t : Task} (h : t.id < 2 ^ 64) :
    get_task_id (encodeLine t) = some t.id := by
  rw [get_task_id]
  have henc : encodeLine t
      = (if t.task_status = .Complete then boxC else boxU)
        ++ (digitChars t.id ++ '*' :: ('*' :: ':' :: ' ' :: t.task)) := by
    by_cases hs : t.task_status = .Complete <;> simp [encodeLine, hs, starColon]
  rw [henc, drop8_box _ _ (by by_cases hs : t.task_status = .Complete <;>
    simp [hs, boxU, boxC]), takeWhile_digits_star, parseUsize_digitChars h]

theorem get_id_enc {t : Task} (h : t.id < 2 ^ 64) :
    get_id (encodeLine t) = some t.id := by
  rw [get_id]
  have := gtid_enc h
  rw [get_task_id] at this
  exact this

theorem filterMap_gtid_tasks {ts : List Task} (h : ∀ t ∈ ts, t.id < 2 ^ 64) :
    ts.filterMap (fun t => get_task_id (encodeLine t)) = ts.map Task.id := by
  induction ts with
  | nil => rfl
  | cons t ts ih =>
    rw [List.filterMap_cons, gtid_enc (h t (by simp))]
    simp only [List.map_cons]
    rw [ih fun x hx => h x (by simp [hx])]

theorem filterMap_gtid_block (h : Line) {ts : List Task}
    (hh : get_task_id h = none) (hts : ∀ t ∈ ts, t.id < 2 ^ 64) :
    (secLines h (ts.map encodeLine)).filterMap get_task_id
      = ts.map Task.id := by
  by_cases he : ts = []
  · subst he
    simp [secLines, spacerTail, List.filterMap_cons, hh, gtid_blank, gtid_sep]
  · have hsp : spacerTail (ts.map encodeLine)
        = ts.map encodeLine ++ [([] : Line)] := by
      simp [spacerTail, he]
    simp only [secLines, hsp, List.filterMap_cons, hh, gtid_blank, gtid_sep,
      List.filterMap_append, List.filterMap_map, Function.comp_def]
    rw [filterMap_gtid_tasks hts]
    simp [List.filterMap_cons, gtid_blank, gtid_sep]

theorem filterMap_gtid_doc (S I C : List Task)
    (h : ∀ t ∈ S ++ I ++ C, t.id < 2 ^ 64) :
    (mkDocT S I C).filterMap get_task_id
      = S.map Task.id ++ I.map Task.id ++ C.map Task.id := by
  have hS : ∀ t ∈ S, t.id < 2 ^ 64 := fun t ht => h t (by simp [ht])
  have hI : ∀ t ∈ I, t.id < 2 ^ 64 := fun t ht => h t (by simp [ht])
  have hC : ∀ t ∈ C, t.id < 2 ^ 64 := fun t ht => h t (by simp [ht])
  rw [mkDocT, mkDoc]
  simp only [List.filterMap_append, List.filterMap_cons, gtid_blank]
  rw [filterMap_gtid_block hdrSel gtid_hdrSel hS,
    filterMap_gtid_block hdrInc gtid_hdrInc hI,
    filterMap_gtid_block hdrComp gtid_hdrComp hC]
  simp

theorem get_next_id_doc (S I C : List Task)
    (h : ∀ t ∈ S ++ I ++ C, t.id < 2 ^ 64) :
    get_next_id (mkDocT S I C) = nextIdSpec (S ++ I ++ C) := by
  rw [get_next_id, nextIdSpec, filterMap_gtid_doc S I C h]
  simp

/-! ### The task codec round-trip -/

theorem getD3_enc (t : Task) :
    (encodeLine t).getD 3 ' '
      = if t.task_status = .Complete then 'x' else ' ' := by
  by_cases h : t.task_status = .Complete <;>
    simp [encodeLine, h, boxU, boxC, List.getD]

theorem dropWhile_colon_enc (t : Task) :
    ((encodeLine t).dropWhile (fun c => c != ':')).drop 2 = t.task := by
  have henc : encodeLine t
      = (if t.task_status = .Complete then boxC else boxU)
        ++ (digitChars t.id ++ ('*' :: '*' :: ':' :: ' ' :: t.task)) := by
    by_cases hs : t.task_status = .Complete <;> simp [encodeLine, hs, starColon]
  rw [henc, dropWhile_append_all _ (fun c hc => by
      by_cases hs : t.task_status = .Complete <;>
        simp [hs, boxU, boxC] at hc <;>
          rcases hc with rfl | rfl | rfl | rfl | rfl | rfl | rfl | rfl <;> decide),
    dropWhile_append_all _ (fun c hc => by
      simp [digitChars_ne_colon t.id c hc])]
  simp [List.dropWhile]

theorem startsWith_box_enc (t : Task) :
    (startsWithL (encodeLine t) boxU || startsWithL (encodeLine t) boxC)
      = true := by
  by_cases h : t.task_status = .Complete
  · apply Bool.or_eq_true_iff.mpr
    right
    rw [show encodeLine t
        = boxC ++ (digitChars t.id ++ starColon ++ t.task) by
      simp [encodeLine, h]]
    exact startsWithL_app boxC _
  · apply Bool.or_eq_true_iff.mpr
    left
    rw [show encodeLine t
        = boxU ++ (digitChars t.id ++ starColon ++ t.task) by
      simp [encodeLine, h]]
    exact startsWithL_app boxU _

/-- Decoding an encoded task inside the section matching its status gives the
task back. -/
theorem decode_encode {t : Task} (h : t.id < 2 ^ 64) :
    taskTryFrom (encodeLine t) t.task_status = some t := by
  rw [taskTryFrom, if_pos (startsWith_box_enc t)]
  have hcond : (((encodeLine t).getD 3 ' ' != 'x')
      && (t.task_status == TaskStatus.Complete)) = false := by
    rw [getD3_enc]
    by_cases hs : t.task_status = .Complete <;> simp [hs]
  rw [if_neg (ne_true_of_eq_false hcond), get_id_enc h, dropWhile_colon_enc]

/-- Decoding a checked (complete-encoded) task line in ANY section succeeds,
with the status silently taken from the section. -/
theorem decode_checked_coerces {id : Nat} (txt : Line) (st : TaskStatus)
    (h : id < 2 ^ 64) :
    taskTryFrom (encodeLine ⟨id, txt, .Complete⟩) st
      = some ⟨id, txt, st⟩ := by
  rw [taskTryFrom, if_pos (startsWith_box_enc ⟨id, txt, .Complete⟩)]
  have hcond : (((encodeLine (⟨id, txt, .Complete⟩ : Task)).getD 3 ' ' != 'x')
      && (st == TaskStatus.Complete)) = false := by
    rw [getD3_enc]
    simp
  rw [if_neg (ne_true_of_eq_false hcond),
    get_id_enc (show (⟨id, txt, .Complete⟩ : Task).id < 2 ^ 64 from h),
    dropWhile_colon_enc]

/-- Decoding an unchecked task line while scanning the COMPLETE section
fails (the "non complete task cannot be complete" error). -/
theorem decode_unchecked_in_complete {st : TaskStatus} (hst : st ≠ .Complete)
    (id : Nat) (txt : Line) :
    taskTryFrom (encodeLine ⟨id, txt, st⟩) .Complete = none := by
  rw [taskTryFrom, if_pos (startsWith_box_enc ⟨id, txt, st⟩)]
  have hcond : (((encodeLine (⟨id, txt, st⟩ : Task)).getD 3 ' ' != 'x')
      && (TaskStatus.Complete == TaskStatus.Complete)) = true := by
    rw [getD3_enc]
    simp [hst]
  rw [if_pos hcond]

/-! ### Last auxiliary lemmas for the claim theorems -/

theorem taskAt_mem {X : List Task} {k : Nat} (h : k < X.length) :
    taskAt X k ∈ X := by
  unfold taskAt
  induction X generalizing k with
  | nil => cases h
  | cons t X ih =>
    cases k with
    | zero => simp [List.getD]
    | succ k =>
      have := ih (by simpa using h)
      simp [List.getD] at this ⊢
      right
      exact this

theorem firstIdx_id_mem {X : List Task} {id k : Nat}
    (h : firstIdx (fun t => t.id == id) X = some k) : ∃ t ∈ X, t.id = id :=
  ⟨taskAt X k, taskAt_mem (firstIdx_some_lt h), firstIdx_id_taskAt h⟩

theorem firstIdx_id_ne {X : List Task} {id : Nat}
    (h : firstIdx (fun t => t.id == id) X = none) : ∀ t ∈ X, t.id ≠ id :=
  fun t ht => by
    have := firstIdx_none_iff.mp h t ht
    simpa using this

theorem runCheck_of_error {lines : List Line} {id : Nat} {e : EngineError}
    (h : checkOp lines id = .error e) : runCheck lines id = lines := by
  rw [runCheck, h]

theorem enc_status_switch {t : Task} (h : t.task_status ≠ .Complete)
    {s : TaskStatus} (hs : s ≠ .Complete) :
    encodeLine ⟨t.id, t.task, s⟩ = encodeLine t := by
  simp [encodeLine, h, hs]

theorem mkDocT_cons_congr {a b : Task} (h : encodeLine a = encodeLine b)
    (S I C : List Task) : mkDocT (a :: S) I C = mkDocT (b :: S) I C := by
  simp [mkDocT, List.map_cons, h]

theorem mkDocT_cons_congr_inc {a b : Task} (h : encodeLine a = encodeLine b)
    (S I C : List Task) : mkDocT S (a :: I) C = mkDocT S (b :: I) C := by
  simp [mkDocT, List.map_cons, h]

/-! ### Claim theorems -/

/-- C1: the List operation is claimed to return exactly the tasks whose
status is in the filter.  The code violates this: scanning a document whose
SELECTED section is empty and whose INCOMPLETE section holds task 0, with
the filter {Selected}, returns that incomplete task (tagged Selected),
because a header whose status is outside the filter does not reset the
section tracker.  The claim requires the empty list here. -/
theorem c1_list_filter_leak :
    get_tasks_in_sections (mkDocT [] [⟨0, ['a'], .Incomplete⟩] [])
      [.Selected] = [⟨0, ['a'], .Selected⟩] := by
  rfl

/-- C2 counterexample: the line `- [ ] **00**: a` decodes successfully
(id 0), yet re-encoding the decoded task produces `- [ ] **0**: a`, a
different line — so encode(decode(line)) == line fails for a line the codec
itself accepts as syntactically valid. -/
theorem c2_counterexample :
    taskTryFrom
        ['-', ' ', '[', ' ', ']', ' ', '*', '*', '0', '0', '*', '*', ':',
          ' ', 'a'] .Incomplete
      = some ⟨0, ['a'], .Incomplete⟩
    ∧ encodeLine ⟨0, ['a'], .Incomplete⟩
      ≠ ['-', ' ', '[', ' ', ']', ' ', '*', '*', '0', '0', '*', '*', ':',
          ' ', 'a'] := by
  exact ⟨by rfl, by decide⟩

/-- C2 (amended): decode(encode(t)) = t for every task whose id fits in a
usize, and encode(decode(line)) = line for every line in the image of the
canonical encoder decoded in its own section — lines whose id field is not
the canonical decimal rendering (e.g. with leading zeros) decode
successfully but do not re-encode to themselves. -/
theorem c2_codec_roundtrip :
    (∀ t : Task, t.id < 2 ^ 64 →
      taskTryFrom (encodeLine t) t.task_status = some t)
    ∧ (∀ (ℓ : Line) (st : TaskStatus) (t0 : Task), t0.id < 2 ^ 64 →
        encodeLine t0 = ℓ → t0.task_status = st →
        ∀ t : Task, taskTryFrom ℓ st = some t → encodeLine t = ℓ) := by
  constructor
  · intro t ht
    exact decode_encode ht
  · rintro ℓ st t0 h0 rfl rfl t hdec
    rw [decode_encode h0] at hdec
    simp only [Option.some.injEq] at hdec
    rw [← hdec]

/-- C2 witness: a concrete complete task round-trips. -/
theorem c2_roundtrip_witness :
    taskTryFrom (encodeLine ⟨5, ['z'], .Complete⟩) .Complete
      = some ⟨5, ['z'], .Complete⟩ :=
  c2_codec_roundtrip.1 ⟨5, ['z'], .Complete⟩ (by decide)

/-- C3: Check fails with the already-in-target-state error whenever the id
is in the COMPLETE section (that check runs first, so it wins over
not-found), fails with task-not-found when no section contains the id, a
failing Check rewrites nothing, and the second of two consecutive Checks of
the same id fails with the already-in-target-state error leaving the
document unchanged. -/
theorem c3_check_errors :
    (∀ (S I C : List Task) (id : Nat), (∃ t ∈ C, t.id = id) →
      checkOp (mkDocT S I C) id = .error .alreadyInTargetState)
    ∧ (∀ (S I C : List Task) (id : Nat), (∀ t ∈ S ++ I ++ C, t.id ≠ id) →
      checkOp (mkDocT S I C) id = .error .taskNotFound)
    ∧ (∀ (lines : List Line) (id : Nat) (e : EngineError),
        checkOp lines id = .error e → runCheck lines id = lines)
    ∧ (∀ (S I C : List Task) (id : Nat) (doc2 : List Line),
        checkOp (mkDocT S I C) id = .ok doc2 →
        checkOp doc2 id = .error .alreadyInTargetState
          ∧ runCheck doc2 id = doc2) := by
  refine ⟨check_err_already, ?_, ?_, ?_⟩
  · intro S I C id h
    exact check_err_notfound S I C id
      (fun t ht => h t (by simp [ht])) (fun t ht => h t (by simp [ht]))
      (fun t ht => h t (by simp [ht]))
  · intro lines id e h
    exact runCheck_of_error h
  · intro S I C id doc2 hok
    cases hC : firstIdx (fun t => t.id == id) C with
    | some c =>
      rw [check_err_already S I C id (firstIdx_id_mem hC)] at hok
      cases hok
    | none =>
      have hCne := firstIdx_id_ne hC
      cases hS : firstIdx (fun t => t.id == id) S with
      | some k =>
        rw [check_ok_sel S I C id hS hCne] at hok
        simp only [Except.ok.injEq] at hok
        subst hok
        have herr := check_err_already (removeAt k S) I
          ((⟨(taskAt S k).id, (taskAt S k).task, .Complete⟩ : Task) :: C) id
          ⟨(⟨(taskAt S k).id, (taskAt S k).task, .Complete⟩ : Task), by simp,
            firstIdx_id_taskAt hS⟩
        exact ⟨herr, runCheck_of_error herr⟩
      | none =>
        have hSne := firstIdx_id_ne hS
        cases hI : firstIdx (fun t => t.id == id) I with
        | some k =>
          rw [check_ok_inc S I C id hSne hI hCne] at hok
          simp only [Except.ok.injEq] at hok
          subst hok
          have herr := check_err_already S (removeAt k I)
            ((⟨(taskAt I k).id, (taskAt I k).task, .Complete⟩ : Task) :: C) id
            ⟨(⟨(taskAt I k).id, (taskAt I k).task, .Complete⟩ : Task), by simp,
              firstIdx_id_taskAt hI⟩
          exact ⟨herr, runCheck_of_error herr⟩
        | none =>
          rw [check_err_notfound S I C id hSne (firstIdx_id_ne hI) hCne]
            at hok
          cases hok

/-- C3 witness: checking the sole complete task fails with the
already-in-target-state error. -/
theorem c3_witness :
    checkOp (mkDocT [] [] [⟨0, ['a'], .Complete⟩]) 0
      = .error .alreadyInTargetState :=
  c3_check_errors.1 [] [] [⟨0, ['a'], .Complete⟩] 0
    ⟨⟨0, ['a'], .Complete⟩, by simp, rfl⟩

/-- C4: for a well-formed document whose ids fit in a usize, the id
allocated by Add is one greater than the maximum task id present across the
three sections (zero when the document has no tasks), and Add returns
exactly that id. -/
theorem c4_next_id :
    ∀ (S I C : List Task) (txt : Line),
      (∀ t ∈ S ++ I ++ C, t.id < 2 ^ 64) →
      get_next_id (mkDocT S I C) = nextIdSpec (S ++ I ++ C)
      ∧ addOp (mkDocT S I C) txt
        = .ok (mkDocT S
            ((⟨nextIdSpec (S ++ I ++ C), txt, .Incomplete⟩ : Task) :: I) C,
          nextIdSpec (S ++ I ++ C)) := by
  intro S I C txt h
  have hn := get_next_id_doc S I C h
  refine ⟨hn, ?_⟩
  rw [add_ok S I C txt, hn]

/-- C4 witness: with a single task of id 3 the allocator yields 4. -/
theorem c4_witness :
    get_next_id (mkDocT [] [⟨3, ['a'], .Incomplete⟩] [])
      = nextIdSpec ([] ++ [⟨3, ['a'], .Incomplete⟩] ++ []) :=
  (c4_next_id [] [⟨3, ['a'], .Incomplete⟩] [] ['b'] (by decide)).1

/-- C5: Add inserts the encoded line of the new task at the top of the
INCOMPLETE section (inserting the blank spacer first when the section was
empty — this is what `mkDocT` with the new task consed onto the section
renders), and after two consecutive Adds the second task's line sits above
the first's. -/
theorem c5_add_inserts_at_top :
    (∀ (S I C : List Task) (txt : Line),
      addOp (mkDocT S I C) txt
        = .ok (mkDocT S
            ((⟨get_next_id (mkDocT S I C), txt, .Incomplete⟩ : Task) :: I) C,
          get_next_id (mkDocT S I C)))
    ∧ (∀ (S I C : List Task) (t1 t2 : Line) (d1 : List Line) (i1 : Nat),
        addOp (mkDocT S I C) t1 = .ok (d1, i1) →
        addOp d1 t2
          = .ok (mkDocT S
              ((⟨get_next_id d1, t2, .Incomplete⟩ : Task)
                :: (⟨i1, t1, .Incomplete⟩ : Task) :: I) C,
            get_next_id d1)) := by
  constructor
  · exact add_ok
  · intro S I C t1 t2 d1 i1 h1
    rw [add_ok] at h1
    simp only [Except.ok.injEq, Prod.mk.injEq] at h1
    obtain ⟨hd, hi⟩ := h1
    subst hd
    subst hi
    exact add_ok S ((⟨get_next_id (mkDocT S I C), t1, .Incomplete⟩ : Task)
      :: I) C t2

/-- C5 witness: adding `b` to a document whose INCOMPLETE section holds the
task added for `a` puts the new line above it. -/
theorem c5_witness :
    addOp (mkDocT [] [⟨0, ['a'], .Incomplete⟩] []) ['b']
      = .ok (mkDocT []
          [⟨get_next_id (mkDocT [] [⟨0, ['a'], .Incomplete⟩] []), ['b'],
            .Incomplete⟩,
           ⟨0, ['a'], .Incomplete⟩] [],
        get_next_id (mkDocT [] [⟨0, ['a'], .Incomplete⟩] [])) :=
  c5_add_inserts_at_top.2 [] [] [] ['a'] ['b']
    (mkDocT [] [⟨0, ['a'], .Incomplete⟩] []) 0 (by rfl)

/-- C6 counterexample: decoding the checked line `- [x] **1**: a` while
scanning the INCOMPLETE section does NOT fail — it succeeds, silently
coercing the task's status to Incomplete — although the claim says this
mismatch is treated as an error. -/
theorem c6_counterexample :
    taskTryFrom (encodeLine ⟨1, ['a'], .Complete⟩) .Incomplete
      = some ⟨1, ['a'], .Incomplete⟩ := by
  rfl

/-- C6 (amended): only an unchecked task line inside the COMPLETE section is
rejected by the codec; a checked task line in any section decodes
successfully with its status coerced to the section's; and the document
scan skips codec errors instead of failing the read (an unchecked line in
COMPLETE is silently dropped). -/
theorem c6_codec_mismatch :
    (∀ (id : Nat) (txt : Line) (st : TaskStatus), st ≠ .Complete →
      taskTryFrom (encodeLine ⟨id, txt, st⟩) .Complete = none)
    ∧ (∀ (id : Nat) (txt : Line) (st : TaskStatus), id < 2 ^ 64 →
      taskTryFrom (encodeLine ⟨id, txt, .Complete⟩) st = some ⟨id, txt, st⟩)
    ∧ get_tasks_in_sections (mkDocT [] [] [⟨0, ['a'], .Incomplete⟩])
        [.Complete] = [] :=
  ⟨fun id txt st h => decode_unchecked_in_complete h id txt,
    fun _ txt st h => decode_checked_coerces txt st h,
    by rfl⟩

/-- C6 witness: an unchecked selected-style line is rejected when decoded in
the COMPLETE section. -/
theorem c6_witness :
    taskTryFrom (encodeLine ⟨2, ['b'], .Selected⟩) .Complete = none :=
  c6_codec_mismatch.1 2 ['b'] .Selected (by decide)

/-- C7: every successful move on a well-formed document removes exactly the
moved task's line from its source section (the source collapsing to the
canonical empty form when it empties), re-inserts it at the top of the
destination section with only the checkbox changed — id and text kept
verbatim — and leaves every other line unchanged: the result is again the
well-formed rendering with only the two affected task lists updated.  The
six conjuncts cover Check (from SELECTED resp. INCOMPLETE), Uncheck (to
INCOMPLETE resp. SELECTED), Select and Deselect. -/
theorem c7_move_frame :
    (∀ (S I C : List Task) (id k : Nat),
      firstIdx (fun t => t.id == id) S = some k → (∀ t ∈ C, t.id ≠ id) →
      checkOp (mkDocT S I C) id
        = .ok (mkDocT (removeAt k S) I
          ((⟨(taskAt S k).id, (taskAt S k).task, .Complete⟩ : Task) :: C)))
    ∧ (∀ (S I C : List Task) (id k : Nat), (∀ t ∈ S, t.id ≠ id) →
      firstIdx (fun t => t.id == id) I = some k → (∀ t ∈ C, t.id ≠ id) →
      checkOp (mkDocT S I C) id
        = .ok (mkDocT S (removeAt k I)
          ((⟨(taskAt I k).id, (taskAt I k).task, .Complete⟩ : Task) :: C)))
    ∧ (∀ (S I C : List Task) (id k : Nat),
      firstIdx (fun t => t.id == id) C = some k →
      uncheckOp (mkDocT S I C) id false
        = .ok (mkDocT S
          ((⟨(taskAt C k).id, (taskAt C k).task, .Incomplete⟩ : Task) :: I)
          (removeAt k C)))
    ∧ (∀ (S I C : List Task) (id k : Nat),
      firstIdx (fun t => t.id == id) C = some k →
      uncheckOp (mkDocT S I C) id true
        = .ok (mkDocT
          ((⟨(taskAt C k).id, (taskAt C k).task, .Selected⟩ : Task) :: S) I
          (removeAt k C)))
    ∧ (∀ (S I C : List Task) (id k : Nat),
      firstIdx (fun t => t.id == id) I = some k →
      (taskAt I k).task_status ≠ .Complete →
      selectOp (mkDocT S I C) id
        = .ok (mkDocT
          ((⟨(taskAt I k).id, (taskAt I k).task, .Selected⟩ : Task) :: S)
          (removeAt k I) C))
    ∧ (∀ (S I C : List Task) (id k : Nat),
      firstIdx (fun t => t.id == id) S = some k →
      (taskAt S k).task_status ≠ .Complete →
      deselectOp (mkDocT S I C) id
        = .ok (mkDocT (removeAt k S)
          ((⟨(taskAt S k).id, (taskAt S k).task, .Incomplete⟩ : Task) :: I)
          C)) := by
  refine ⟨?_, ?_, ?_, ?_, ?_, ?_⟩
  · intro S I C id k hS hC
    exact check_ok_sel S I C id hS hC
  · intro S I C id k hS hI hC
    exact check_ok_inc S I C id hS hI hC
  · intro S I C id k hC
    exact uncheck_ok_inc S I C id hC
  · intro S I C id k hC
    exact uncheck_ok_sel S I C id hC
  · intro S I C id k hI hst
    rw [select_ok_inc S I C id hI]
    exact congrArg Except.ok (mkDocT_cons_congr
      (enc_status_switch hst
        (show TaskStatus.Selected ≠ TaskStatus.Complete by decide)).symm
      S (removeAt k I) C)
  · intro S I C id k hS hst
    rw [deselect_ok S I C id hS]
    exact congrArg Except.ok (mkDocT_cons_congr_inc
      (enc_status_switch hst
        (show TaskStatus.Incomplete ≠ TaskStatus.Complete by decide)).symm
      (removeAt k S) I C)

/-- C7 witness: checking the sole selected task moves it to COMPLETE. -/
theorem c7_witness :
    checkOp (mkDocT [⟨0, ['a'], .Selected⟩] [] []) 0
      = .ok (mkDocT (removeAt 0 [⟨0, ['a'], .Selected⟩]) []
          [⟨(taskAt [⟨0, ['a'], .Selected⟩] 0).id,
            (taskAt [⟨0, ['a'], .Selected⟩] 0).task, .Complete⟩]) :=
  c7_move_frame.1 [⟨0, ['a'], .Selected⟩] [] [] 0 0 rfl (by simp)

/-- C8 counterexample: Select applied to a task already in the SELECTED
section is NOT rejected — it succeeds (re-inserting the task at the top of
SELECTED, here reproducing the same document), contradicting the claim that
this transition is rejected rather than performed. -/
theorem c8_counterexample :
    selectOp (mkDocT [⟨0, ['a'], .Selected⟩] [] []) 0
      = .ok (mkDocT [⟨0, ['a'], .Selected⟩] [] []) := by
  rfl

/-- C8 (amended): Select moves an incomplete task to the top of SELECTED;
Select on a complete task is rejected with the "not incomplete" error; but
Select on a task already in SELECTED is NOT rejected: it succeeds and
re-inserts the task (verbatim) at the top of the SELECTED section. -/
theorem c8_select_transitions :
    (∀ (S I C : List Task) (id k : Nat),
      firstIdx (fun t => t.id == id) I = some k →
      (taskAt I k).task_status ≠ .Complete →
      selectOp (mkDocT S I C) id
        = .ok (mkDocT
          ((⟨(taskAt I k).id, (taskAt I k).task, .Selected⟩ : Task) :: S)
          (removeAt k I) C))
    ∧ (∀ (S I C : List Task) (id : Nat), (∀ t ∈ I, t.id ≠ id) →
      (∃ t ∈ C, t.id = id) →
      selectOp (mkDocT S I C) id = .error .notIncomplete)
    ∧ (∀ (S I C : List Task) (id k : Nat), (∀ t ∈ I, t.id ≠ id) →
      (∀ t ∈ C, t.id ≠ id) → firstIdx (fun t => t.id == id) S = some k →
      selectOp (mkDocT S I C) id
        = .ok (mkDocT (taskAt S k :: removeAt k S) I C)) := by
  refine ⟨?_, select_err_notinc, select_ok_sel⟩
  intro S I C id k hI hst
  rw [select_ok_inc S I C id hI]
  exact congrArg Except.ok (mkDocT_cons_congr
    (enc_status_switch hst
      (show TaskStatus.Selected ≠ TaskStatus.Complete by decide)).symm
    S (removeAt k I) C)

/-- C8 witness: selecting a complete task is rejected as "not incomplete". -/
theorem c8_witness :
    selectOp (mkDocT [] [] [⟨0, ['a'], .Complete⟩]) 0
      = .error .notIncomplete :=
  c8_select_transitions.2.1 [] [] [⟨0, ['a'], .Complete⟩] 0 (by simp)
    ⟨⟨0, ['a'], .Complete⟩, by simp, rfl⟩

/-- C9 counterexample: Deselect of a task whose status is Incomplete fails
with the task-not-found error, not the already-in-target-state error the
claim names. -/
theorem c9_counterexample :
    deselectOp (mkDocT [] [⟨0, ['a'], .Incomplete⟩] []) 0
      = .error .taskNotFound
    ∧ EngineError.taskNotFound ≠ EngineError.alreadyInTargetState :=
  ⟨by rfl, by decide⟩

/-- C9 (amended): Deselect moves a selected task to the top of INCOMPLETE,
and Deselect of an id not present in the SELECTED section — in particular a
task currently Incomplete or Complete — fails with the task-not-found
error (only SELECTED is searched), not AlreadyInTargetState. -/
theorem c9_deselect :
    (∀ (S I C : List Task) (id k : Nat),
      firstIdx (fun t => t.id == id) S = some k →
      (taskAt S k).task_status ≠ .Complete →
      deselectOp (mkDocT S I C) id
        = .ok (mkDocT (removeAt k S)
          ((⟨(taskAt S k).id, (taskAt S k).task, .Incomplete⟩ : Task) :: I)
          C))
    ∧ (∀ (S I C : List Task) (id : Nat), (∀ t ∈ S, t.id ≠ id) →
      deselectOp (mkDocT S I C) id = .error .taskNotFound) := by
  refine ⟨?_, deselect_err_notfound⟩
  intro S I C id k hS hst
  rw [deselect_ok S I C id hS]
  exact congrArg Except.ok (mkDocT_cons_congr_inc
    (enc_status_switch hst
      (show TaskStatus.Incomplete ≠ TaskStatus.Complete by decide)).symm
    (removeAt k S) I C)

/-- C9 witness: deselecting a task that sits in the COMPLETE section fails
with the task-not-found error. -/
theorem c9_witness :
    deselectOp (mkDocT [] [] [⟨0, ['a'], .Complete⟩]) 0
      = .error .taskNotFound :=
  c9_deselect.2 [] [] [⟨0, ['a'], .Complete⟩] 0 (by simp)

/-- C10: the id Add allocates equals one greater than the maximum, over ALL
lines of the document, of the number formed by the characters after the
first eight up to the first `*` whenever that slice parses as a usize (zero
when no line parses); hence a free-text line such as `abcdefgh41` raises
the next allocated id to 42. -/
theorem c10_next_id_scans_all_lines :
    (∀ (lines : List Line) (txt : Line) (d : List Line) (i : Nat),
      addOp lines txt = .ok (d, i) → i = specScanNextId lines)
    ∧ (∃ d : List Line,
        addOp (mkDocT [] [] []
            ++ [['a', 'b', 'c', 'd', 'e', 'f', 'g', 'h', '4', '1']]) ['x']
          = .ok (d, 42)) := by
  constructor
  · intro lines txt d i h
    rw [addOp] at h
    cases hsec : get_section_indexes lines .Incomplete with
    | none =>
      rw [hsec] at h
      cases h
    | some se =>
      obtain ⟨s, e⟩ := se
      rw [hsec] at h
      simp only [Except.ok.injEq, Prod.mk.injEq] at h
      rw [← h.2]
      rfl
  · exact ⟨_, by rfl⟩

/-- C10 witness: on the empty document the allocated id 0 matches the
all-lines scan formula. -/
theorem c10_witness : (0 : Nat) = specScanNextId (mkDocT [] [] []) :=
  c10_next_id_scans_all_lines.1 (mkDocT [] [] []) ['a']
    (mkDocT [] [⟨0, ['a'], .Incomplete⟩] []) 0 (by rfl)

end Markdone
